import Mathlib

/-!
Verification of the aggregation / map-annotation core of the SMap feedback
bot (`src/bot.py`).

Python strings are modelled as `List Char` (Python `str` is a sequence of
code points, `len` counts code points).  Python `dict`s keyed by ids are
modelled as association lists in insertion order (new keys are appended at
the end, which matches CPython dict iteration order).  The JSON files on
disk are modelled as `Option (Except Unit α)`: `none` is a missing file,
`some (.error ())` a file whose contents do not decode, `some (.ok v)` a
file holding the value `v`.  Python integer floor division `//` is
`Int.fdiv`, `abs` is `|·|`.
-/

namespace SMap

/-- A wall-clock instant as produced by `datetime.now()`:
calendar fields down to microseconds. -/
structure PyTime where
  year : Nat
  month : Nat
  day : Nat
  hour : Nat
  minute : Nat
  second : Nat
  micro : Nat
deriving DecidableEq, Repr

/-- Zero-padded two-digit decimal rendering, as `strftime` `%m`, `%d`,
`%H`, `%M`, `%S` produce for their in-range values. -/
def pad2 (n : Nat) : List Char :=
  [Nat.digitChar (n / 10 % 10), Nat.digitChar (n % 10)]

/-- Zero-padded four-digit decimal rendering, as `strftime` `%Y` produces
for years below 10000. -/
def pad4 (n : Nat) : List Char :=
  [Nat.digitChar (n / 1000 % 10), Nat.digitChar (n / 100 % 10),
   Nat.digitChar (n / 10 % 10), Nat.digitChar (n % 10)]

/-- `now.strftime("%d.%m.%Y %H:%M")` — the human-readable `date` field of
a stored feedback record (`bot.py` line 153). -/
def formatDate (t : PyTime) : List Char :=
  pad2 t.day ++ [Char.ofNat 46] ++ pad2 t.month ++ [Char.ofNat 46] ++ pad4 t.year
    ++ [Char.ofNat 32] ++ pad2 t.hour ++ [Char.ofNat 58] ++ pad2 t.minute

/-- `now.strftime("%Y%m%d_%H%M%S")` — the timestamp embedded in generated
map filenames (`bot.py` line 676).  Note that it stops at whole seconds:
the `micro` field of the instant is discarded. -/
def formatCacheStamp (t : PyTime) : List Char :=
  pad4 t.year ++ pad2 t.month ++ pad2 t.day ++ [Char.ofNat 95]
    ++ pad2 t.hour ++ pad2 t.minute ++ pad2 t.second

/-- `now.isoformat()` — the machine-readable `timestamp` field of a stored
feedback record; Python omits the fractional part when `microsecond = 0`
and otherwise prints six digits. -/
def formatIso (t : PyTime) : List Char :=
  pad4 t.year ++ [Char.ofNat 45] ++ pad2 t.month ++ [Char.ofNat 45] ++ pad2 t.day
    ++ [Char.ofNat 84] ++ pad2 t.hour ++ [Char.ofNat 58] ++ pad2 t.minute
    ++ [Char.ofNat 58] ++ pad2 t.second
    ++ (if t.micro = 0 then [] else
        [Char.ofNat 46] ++ pad2 (t.micro / 10000) ++ pad2 (t.micro / 100 % 100)
          ++ pad2 (t.micro % 100))

/-- The contents of one JSON file as seen by `load_json`: missing,
present but not decodable, or decoded to a value. -/
def JsonFile (α : Type) : Type := Option (Except Unit α)

/-- `load_json(file_path, default)` (`bot.py` lines 89..104): a missing
file is created holding the default and the default is returned; a file
with undecodable contents is left alone and the default is returned; a
decodable file is returned as is.  Result: the loaded value and the file
state after the call. -/
def load_json (file : JsonFile α) (default : α) : α × JsonFile α :=
  match file with
  | none => (default, some (Except.ok default))
  | some (Except.error _) => (default, some (Except.error ()))
  | some (Except.ok v) => (v, some (Except.ok v))

/-- `save_json(file_path, data)` (`bot.py` lines 106..112): overwrite the
file with the given value. -/
def save_json (_file : JsonFile α) (data : α) : JsonFile α :=
  some (Except.ok data)

/-- One stored feedback record — the dict built in `save_feedback`
(`bot.py` lines 142..155). -/
structure Feedback where
  id : Nat
  ftype : List Char
  type_emoji : List Char
  type_text : List Char
  location_id : Int
  text : List Char
  real_user_id : Option Int
  real_username : Option (List Char)
  public_user_id : List Char
  date : List Char
  timestamp : List Char
  status : List Char
deriving DecidableEq, Repr

/-- Decimal rendering of a natural number, as Python `str(int)` /
f-string interpolation produce for non-negative values. -/
def natToChars (n : Nat) : List Char := Nat.toDigits 10 n

/-- The record `save_feedback` builds for the new submission: id is
`len(feedbacks) + 1`, the public pseudonym is `"user_" ++ str(len(feedbacks)
+ 1000)`, timestamps come from `datetime.now()` (`bot.py` lines 139..155). -/
def makeFeedback (feedbacks : List Feedback) (feedback_type : List Char)
    (location_id : Int) (text : List Char) (user_id : Option Int)
    (username : Option (List Char)) (now : PyTime) : Feedback :=
  { id := feedbacks.length + 1
    ftype := feedback_type
    type_emoji := if feedback_type = "complaint".toList
      then "🔴".toList else "🟢".toList
    type_text := if feedback_type = "complaint".toList
      then "Жалоба".toList else "Предложение".toList
    location_id := location_id
    text := text
    real_user_id := user_id
    real_username := username
    public_user_id := "user_".toList ++ natToChars (feedbacks.length + 1000)
    date := formatDate now
    timestamp := formatIso now
    status := "новое".toList }

/-- The persistent state the report-store operations touch: the feedbacks
JSON file and the set of files currently in the map cache directory. -/
structure StoreState where
  feedbacks_file : JsonFile (List Feedback)
  cache_files : List (List Char)

/-- `get_feedbacks()` (`bot.py` lines 131..133): `load_json(FEEDBACKS_FILE,
[])`, with its possible file-creating side effect. -/
def get_feedbacks (s : StoreState) : List Feedback × StoreState :=
  let r := load_json s.feedbacks_file []
  (r.1, { s with feedbacks_file := r.2 })

/-- `cleanup_cache_completely()` (`bot.py` lines 281..294): delete every
file in the map cache directory. -/
def cleanup_cache_completely (s : StoreState) : StoreState :=
  { s with cache_files := [] }

/-- `save_feedback(...)` (`bot.py` lines 135..166): read the current
feedback list, append the new record, write the list back, then clear the
map cache — all before returning. -/
def save_feedback (s : StoreState) (feedback_type : List Char)
    (location_id : Int) (text : List Char) (user_id : Option Int)
    (username : Option (List Char)) (now : PyTime) : StoreState :=
  let r := get_feedbacks s
  let feedbacks := r.1
  let new_feedback := makeFeedback feedbacks feedback_type location_id text
    user_id username now
  let s1 := { r.2 with
    feedbacks_file := save_json r.2.feedbacks_file (feedbacks ++ [new_feedback]) }
  cleanup_cache_completely s1

/-- `get_feedback_counts()` inner loop body (`bot.py` lines 168..183):
seed the location with zero counters if absent, then bump the complaint
counter when `type == "complaint"` and the suggestion counter otherwise.
The dict is an association list: new keys are appended at the end. -/
def addCount (counts : List (Int × Nat × Nat)) (loc : Int) (isComplaint : Bool) :
    List (Int × Nat × Nat) :=
  match counts with
  | [] => [(loc, if isComplaint then (1, 0) else (0, 1))]
  | (l, c, su) :: rest =>
    if l = loc then
      (l, if isComplaint then (c + 1, su) else (c, su + 1)) :: rest
    else
      (l, c, su) :: addCount rest loc isComplaint

/-- `get_feedback_counts()` (`bot.py` lines 168..183), applied to an
already-loaded feedback list: fold every record into the per-location
counter dict. -/
def feedbackCounts (feedbacks : List Feedback) : List (Int × Nat × Nat) :=
  feedbacks.foldl
    (fun acc f => addCount acc f.location_id (f.ftype = "complaint".toList)) []

/-- Reading a location's counters out of the aggregate dict, defaulting to
zeroes when the location has no entry (as `feedback_counts.get(loc_id,
{"complaints": 0, "suggestions": 0})` does at the call sites). -/
def lookupCounts (counts : List (Int × Nat × Nat)) (loc : Int) : Nat × Nat :=
  match counts with
  | [] => (0, 0)
  | (l, c, su) :: rest => if l = loc then (c, su) else lookupCounts rest loc

/-- Total number of reports accounted for by the aggregate dict. -/
def sumCounts : List (Int × Nat × Nat) → Nat
  | [] => 0
  | (_, c, su) :: rest => c + su + sumCounts rest

/-- The two report kinds the dialogue flow submits: `feedback_type` is set
to `"complaint"` or `"suggestion"` from the two menu buttons (`bot.py`
lines 1274 and 1312) before `save_feedback` is called. -/
inductive FbKind where
  | complaint
  | suggestion
deriving DecidableEq, Repr

/-- The string `save_feedback` receives for each kind. -/
def kindChars : FbKind → List Char
  | FbKind.complaint => "complaint".toList
  | FbKind.suggestion => "suggestion".toList

/-- One accepted append: the arguments of one `save_feedback` call made by
the dialogue flow, together with the wall-clock instant of the call. -/
structure AppendCall where
  kind : FbKind
  location_id : Int
  text : List Char
  user_id : Option Int
  username : Option (List Char)
  now : PyTime

/-- Run a sequence of accepted `save_feedback` calls against a store. -/
def runAppends (s : StoreState) (calls : List AppendCall) : StoreState :=
  calls.foldl
    (fun s c => save_feedback s (kindChars c.kind) c.location_id c.text
      c.user_id c.username c.now) s

/-- A freshly-installed store: no feedbacks file yet, empty cache. -/
def emptyStore : StoreState := { feedbacks_file := none, cache_files := [] }

/-- Direct enumeration predicate: a stored complaint at `loc`. -/
def complaintAt (loc : Int) (f : Feedback) : Bool :=
  decide (f.location_id = loc) && decide (f.ftype = "complaint".toList)

/-- Direct enumeration predicate: a stored suggestion at `loc`. -/
def suggestionAt (loc : Int) (f : Feedback) : Bool :=
  decide (f.location_id = loc) && decide (f.ftype = "suggestion".toList)

/-- ASCII whitespace as recognised by Python `str.strip()` and the regex
class `\s` (restricted to the ASCII repertoire this program handles):
space, tab, newline, carriage return, vertical tab, form feed. -/
def pySpace (c : Char) : Bool :=
  c == ' ' || c == '\t' || c == '\n' || c == '\r' ||
    c == Char.ofNat 11 || c == Char.ofNat 12

/-- Python `str.strip()`: drop leading and trailing whitespace. -/
def pyStrip (l : List Char) : List Char :=
  ((l.dropWhile pySpace).reverse.dropWhile pySpace).reverse

/-- One location record as produced by `get_locations()` (`bot.py`
lines 114..128). -/
structure Location where
  id : Int
  name : List Char
  emoji : List Char
  description : List Char
deriving DecidableEq, Repr

/-- The seeded default location registry (`bot.py` lines 116..127). -/
def default_locations : List Location :=
  [⟨1, "Главный корпус".toList, "🏫".toList, "Основное здание школы".toList⟩,
   ⟨2, "Столовая".toList, "🍽".toList, "Помещение для приема пищи".toList⟩,
   ⟨3, "Спортивный зал".toList, "⚽".toList, "Зал для занятий спортом".toList⟩,
   ⟨4, "Библиотека".toList, "📚".toList, "Школьная библиотека".toList⟩,
   ⟨5, "Компьютерный класс".toList, "🖥️".toList, "Класс с компьютерами".toList⟩,
   ⟨6, "Школьный двор".toList, "🌳".toList, "Территория вокруг школы".toList⟩,
   ⟨7, "Раздевалки".toList, "🚿".toList, "Раздевалки и душевые".toList⟩,
   ⟨8, "Кабинеты химии/физики".toList, "🧪".toList, "Специализированные кабинеты".toList⟩,
   ⟨9, "Актовый зал".toList, "🎭".toList, "Зал для мероприятий".toList⟩,
   ⟨10, "Коридоры и рекреации".toList, "🚪".toList, "Общие помещения".toList⟩,
   ⟨11, "Турникеты".toList, "🎫".toList, "Входные турникеты и система контроля доступа".toList⟩,
   ⟨12, "Бассейн".toList, "🏊".toList, "Школьный бассейн и раздевалки при нем".toList⟩]

/-- Whether an id resolves to a known location in the registry. -/
def knownLocation (locs : List Location) (id : Int) : Bool :=
  locs.any (fun l => decide (l.id = id))

/-- `enter_feedback_text` (`bot.py` lines 1397..1430), reduced to its data
effect: reject when the *stripped* text is shorter than 5 characters,
reject when the *unstripped* text is longer than 1000 characters, and
otherwise store the stripped text via `save_feedback`.  Returns the store
state after the handler and whether the submission was accepted.  Note the
handler performs no check at all on `location_id`. -/
def enter_feedback_text (s : StoreState) (msg_text : List Char)
    (feedback_type : List Char) (location_id : Int) (user_id : Int)
    (username : Option (List Char)) (now : PyTime) : StoreState × Bool :=
  if (pyStrip msg_text).length < 5 then (s, false)
  else if 1000 < msg_text.length then (s, false)
  else (save_feedback s feedback_type location_id (pyStrip msg_text)
          (some user_id) username now, true)

/-- Python `str(i)` for an integer. -/
def intToChars (i : Int) : List Char :=
  if i < 0 then Char.ofNat 45 :: natToChars i.natAbs else natToChars i.natAbs

/-- One coordinate entry `{x, y, name}` of the coordinates table. -/
structure Coord where
  x : Int
  y : Int
  name : List Char
deriving DecidableEq, Repr

/-- The coordinates table: a dict from string-encoded location id to
coordinate entry, in insertion order. -/
abbrev CoordTable : Type := List (List Char × Coord)

/-- Key membership in the coordinates dict. -/
def hasKey (t : CoordTable) (k : List Char) : Bool :=
  t.any (fun e => decide (e.1 = k))

/-- Dict lookup (first matching key). -/
def lookupKey : CoordTable → List Char → Option Coord
  | [], _ => none
  | e :: rest, k => if e.1 = k then some e.2 else lookupKey rest k

/-- The seeded default coordinate layout (`bot.py` lines 213..226). -/
def default_coordinates : CoordTable :=
  [("1".toList, ⟨400, 300, "Главный корпус".toList⟩),
   ("2".toList, ⟨200, 200, "Столовая".toList⟩),
   ("3".toList, ⟨600, 200, "Спортзал".toList⟩),
   ("4".toList, ⟨150, 400, "Библиотека".toList⟩),
   ("5".toList, ⟨650, 400, "Компьютерный класс".toList⟩),
   ("6".toList, ⟨400, 100, "Школьный двор".toList⟩),
   ("7".toList, ⟨700, 300, "Раздевалки".toList⟩),
   ("8".toList, ⟨300, 500, "Кабинеты химии/физики".toList⟩),
   ("9".toList, ⟨500, 500, "Актовый зал".toList⟩),
   ("10".toList, ⟨400, 400, "Коридоры".toList⟩),
   ("11".toList, ⟨100, 300, "Турникеты".toList⟩),
   ("12".toList, ⟨600, 100, "Бассейн".toList⟩)]

/-- The backfill loop of `load_coordinates` (`bot.py` lines 236..246):
every known location whose string id is not a key of the table gets an
in-memory entry at the canvas centre (512, 512); existing entries are not
touched, and nothing is written back. -/
def backfillCoordinates (locs : List Location) (t : CoordTable) : CoordTable :=
  locs.foldl
    (fun acc loc =>
      if hasKey acc (intToChars loc.id) then acc
      else acc ++ [(intToChars loc.id, ⟨512, 512, loc.name⟩)]) t

/-- `load_coordinates()` (`bot.py` lines 211..249): a missing file is
seeded with the default layout (and returned without backfill); an
existing file is loaded via `load_json` (falling back to the default
layout when corrupt), backfilled in memory for known locations, and — per
the final comment in the source — never saved back. -/
def load_coordinates (locs : List Location) (file : JsonFile CoordTable) :
    CoordTable × JsonFile CoordTable :=
  match file with
  | none => (default_coordinates, some (Except.ok default_coordinates))
  | some e =>
    ((backfillCoordinates locs (load_json (some e) default_coordinates).1), some e)

/-- The label-background padding used by every marker branch of
`generate_map_image` (`bot.py` lines 436, 525, 591):
`max(10, min(map_width, map_height) // 50)`. -/
def paddingOf (map_width map_height : Int) : Int :=
  max 10 ((min map_width map_height).fdiv 50)

/-- The low-edge boundary check shared by all three marker branches
(`bot.py` lines 443..450, 530..534, 596..600 for the left edge and the
analogous top-edge blocks): if the low rectangle corner is inside the
10-pixel margin, translate both corners right/down by `abs(corner) + 10`. -/
def clampLow (r1 r2 : Int) : Int × Int :=
  if r1 < 10 then (r1 + (|r1| + 10), r2 + (|r1| + 10)) else (r1, r2)

/-- The high-edge boundary check shared by all three marker branches
(`bot.py` lines 451..458, 535..539 and analogous blocks): if the high
rectangle corner passes `bound - 10`, translate both corners back by
`corner - bound + 10`. -/
def clampHigh (bound r1 r2 : Int) : Int × Int :=
  if r2 > bound - 10 then (r1 - (r2 - bound + 10), r2 - (r2 - bound + 10))
  else (r1, r2)

/-- The background rectangle of one marker after clamping. -/
structure MarkerRect where
  x1 : Int
  y1 : Int
  x2 : Int
  y2 : Int
deriving DecidableEq, Repr

/-- The marker-placement geometry of `generate_map_image` (`bot.py` lines
380..464 and the two structurally identical single-value branches): the
centre is first clamped into `[50, side - 50]`, the background rectangle
spans `total_width // 2 + padding` and `text_height // 2 + padding` around
it, and then the four boundary checks run in source order — left, right,
top, bottom. -/
def placeMarkerRect (map_width map_height total_width text_height
    xraw yraw : Int) : MarkerRect :=
  let x := max 50 (min xraw (map_width - 50))
  let y := max 50 (min yraw (map_height - 50))
  let padding := paddingOf map_width map_height
  let hw := total_width.fdiv 2
  let hh := text_height.fdiv 2
  let px := clampLow (x - hw - padding) (x + hw + padding)
  let qx := clampHigh map_width px.1 px.2
  let py := clampLow (y - hh - padding) (y + hh + padding)
  let qy := clampHigh map_height py.1 py.2
  ⟨qx.1, qy.1, qx.2, qy.2⟩

/-- The output path `generate_map_with_cache` builds for one render
(`bot.py` lines 675..677): `f"{MAP_CACHE_DIR}map_{timestamp}.jpg"` with
`timestamp = datetime.now().strftime("%Y%m%d_%H%M%S")`. -/
def map_output_path (now : PyTime) : List Char :=
  "images/cache/map_".toList ++ formatCacheStamp now ++ ".jpg".toList

/-- Whether each PIL drawing call raises when processing one marker.
`bboxOk` stands for the `draw.textbbox` measurements, `rectOk` for the
background `draw.rectangle`, `textOk` for the first colored
`draw.text` attempt, `fallbackOk` for the dual-value branch's fallback
`draw.text` (`bot.py` lines 369..641). -/
structure DrawBehavior where
  bboxOk : Bool
  rectOk : Bool
  textOk : Bool
  fallbackOk : Bool
deriving DecidableEq, Repr

/-- What processing one marker inside the `generate_map_image` loop does. -/
inductive MarkerStep where
  | skipped
  | drawn
  | raised
deriving DecidableEq, Repr

/-- The exception structure of one iteration of the marker loop of
`generate_map_image` (`bot.py` lines 369..641).  In the single-value
branches a measurement failure (`draw.textbbox`) is caught and fully
replaced by a character-count estimate (`bot.py` lines 525..527,
590..593), so there `bboxOk` never decides the outcome.  In the
dual-value branch, however, the measurement `except` block (`bot.py`
lines 414..420) assigns estimates for every size *except*
`separator_height`, which is bound only inside the `try` (line 409) — so
when the measurement facility raises, the `text_height = max(...,
separator_height)` computation at line 424 raises `UnboundLocalError`,
which no per-marker handler catches.  The background `draw.rectangle` is
not inside any `try` either, so its failure also escapes.  The dual-value
branch's three `draw.text` calls are inside a `try` whose handler draws a
fallback text — itself unprotected; in the single-value branches
`draw.text` is unprotected. -/
def processMarker (beh : DrawBehavior) (counts : Nat × Nat) : MarkerStep :=
  if counts.1 = 0 ∧ counts.2 = 0 then MarkerStep.skipped
  else if counts.1 ≠ 0 ∧ counts.2 ≠ 0 then
    if !beh.bboxOk then MarkerStep.raised
    else if !beh.rectOk then MarkerStep.raised
    else if beh.textOk || beh.fallbackOk then MarkerStep.drawn
    else MarkerStep.raised
  else
    if !beh.rectOk then MarkerStep.raised
    else if beh.textOk then MarkerStep.drawn
    else MarkerStep.raised

/-- Digits-only string to number, for `int(loc_id_str)`. -/
def digitsToNat (ds : List Char) : Nat :=
  ds.foldl (fun a c => a * 10 + (c.toNat - 48)) 0

/-- `int(loc_id_str)` (`bot.py` lines 371..374), restricted to the
decimal forms `str(int)` produces; anything else raises `ValueError`,
which the loop catches and turns into `continue`. -/
def parseIntKey (k : List Char) : Option Int :=
  match k with
  | [] => none
  | c :: rest =>
    if c = Char.ofNat 45 then
      if rest ≠ [] ∧ rest.all (fun d => d.isDigit) then
        some (-(digitsToNat rest : Int))
      else none
    else if (c :: rest).all (fun d => d.isDigit) then
      some (digitsToNat (c :: rest))
    else none

/-- The marker loop of `generate_map_image` (`bot.py` lines 369..641)
with the whole-function `try/except` (`bot.py` lines 312, 655..657):
iterate the coordinate entries in order, skip unparsable keys and
zero-count locations, draw the rest, and — because the loop body has no
per-marker handler — abort the entire render (returning `False`, no
artifact) as soon as one marker's processing raises.  Returns whether an
artifact is produced and how many markers were drawn onto it. -/
def drawMarkersLoop (beh : Int → DrawBehavior)
    (feedback_counts : List (Int × Nat × Nat)) :
    List (List Char × Coord) → Nat → Bool × Nat
  | [], n => (true, n)
  | e :: rest, n =>
    match parseIntKey e.1 with
    | none => drawMarkersLoop beh feedback_counts rest n
    | some loc =>
      match processMarker (beh loc) (lookupCounts feedback_counts loc) with
      | MarkerStep.skipped => drawMarkersLoop beh feedback_counts rest n
      | MarkerStep.drawn => drawMarkersLoop beh feedback_counts rest (n + 1)
      | MarkerStep.raised => (false, n)

/-- `generate_map_image`, reduced to its marker-loop success structure:
runs the loop over the coordinate table starting from zero drawn
markers. -/
def generate_map_image (beh : Int → DrawBehavior)
    (coordinates : List (List Char × Coord))
    (feedback_counts : List (Int × Nat × Nat)) : Bool × Nat :=
  drawMarkersLoop beh feedback_counts coordinates 0

/-- The per-marker failure modes the renderer actually survives: if the
marker is drawn at all (nonzero counts), the rectangle draw must succeed;
in the dual-value branch the measurement must also succeed (because of
the unbound `separator_height` in its fallback) and the text draw may be
replaced by the fallback draw; in the single-value branches the text draw
must succeed while the measurement (`bboxOk`) is unconstrained, its
fallback estimate being complete there. -/
abbrev survivable (beh : DrawBehavior) (counts : Nat × Nat) : Prop :=
  ¬ (counts.1 = 0 ∧ counts.2 = 0) →
    beh.rectOk = true
    ∧ (counts.1 ≠ 0 ∧ counts.2 ≠ 0 →
        beh.bboxOk = true ∧ (beh.textOk = true ∨ beh.fallbackOk = true))
    ∧ ((counts.1 = 0 ∨ counts.2 = 0) → beh.textOk = true)

/-- `survivable` lifted to one coordinate entry: constrains only the
location the entry's key actually parses to. -/
abbrev keySurvivable (beh : Int → DrawBehavior)
    (fc : List (Int × Nat × Nat)) (e : List Char × Coord) : Prop :=
  match parseIntKey e.1 with
  | none => True
  | some loc => survivable (beh loc) (lookupCounts fc loc)

instance (beh : Int → DrawBehavior) (fc : List (Int × Nat × Nat))
    (e : List Char × Coord) : Decidable (keySurvivable beh fc e) := by
  unfold keySurvivable
  cases hp : parseIntKey e.1 with
  | none => exact isTrue trivial
  | some loc => exact inferInstance

/-- Python's regex word class `\w` (Unicode word characters), restricted
to the repertoire this program handles: ASCII letters, digits, underscore,
and the Cyrillic block U+0400..U+04FF. -/
def isWordChar (c : Char) : Bool :=
  c.isAlphanum || c == Char.ofNat 95 || (0x400 ≤ c.toNat && c.toNat ≤ 0x4FF)

/-- Whether a string starts with a word character. -/
def headWord : List Char → Bool
  | [] => false
  | c :: _ => isWordChar c

/-- The replacement `re.sub(r'@\w+', ...)` inserts (`bot.py` line 204). -/
def userRepl : List Char := "[пользователь]".toList

/-- The replacement `re.sub(r'https?://\S+', ...)` inserts (`bot.py`
line 205). -/
def linkRepl : List Char := "[ссылка]".toList

/-- `re.sub(r'@\w+', '[пользователь]', text)` (`bot.py` line 204) as a
left-to-right scanner.  The Boolean state is true while the scanner is
consuming the (greedy, maximal) `\w+` run of a match that has already
emitted its replacement. -/
def subAtAux : Bool → List Char → List Char
  | _, [] => []
  | skipping, c :: rest =>
    if skipping && isWordChar c then subAtAux true rest
    else if c == Char.ofNat 64 && headWord rest then
      userRepl ++ subAtAux true rest
    else c :: subAtAux false rest

/-- `re.sub(r'https?://\S+', '[ссылка]', text)` (`bot.py` line 205) as a
left-to-right scanner.  The Boolean state is true while the scanner is
consuming the (greedy, maximal) `\S+` run of a match that has already
emitted its replacement; a match needs `http://` or `https://` followed
by at least one non-space character. -/
def subUrlAux : Bool → List Char → List Char
  | _, [] => []
  | true, c :: rest =>
    if pySpace c then c :: subUrlAux false rest else subUrlAux true rest
  | false, 'h' :: 't' :: 't' :: 'p' :: 's' :: ':' :: '/' :: '/' :: d :: r =>
    if pySpace d then
      'h' :: subUrlAux false ('t' :: 't' :: 'p' :: 's' :: ':' :: '/' :: '/' :: d :: r)
    else linkRepl ++ subUrlAux true (d :: r)
  | false, 'h' :: 't' :: 't' :: 'p' :: ':' :: '/' :: '/' :: d :: r =>
    if pySpace d then
      'h' :: subUrlAux false ('t' :: 't' :: 'p' :: ':' :: '/' :: '/' :: d :: r)
    else linkRepl ++ subUrlAux true (d :: r)
  | false, c :: rest => c :: subUrlAux false rest

/-- `anonymize_text(text, max_length)` (`bot.py` lines 201..208): mask
`@handle` tokens, then mask URL tokens, then truncate to `max_length`
appending `"..."` when the result is longer than `max_length`. -/
def anonymize_text (text : List Char) (max_length : Nat) : List Char :=
  let t1 := subAtAux false text
  let t2 := subUrlAux false t1
  if max_length < t2.length then t2.take max_length ++ "...".toList else t2

/-- Whether `l` ends with the suffix `s`. -/
def endsWithSeq (l s : List Char) : Bool :=
  decide (List.drop (l.length - s.length) l = s)

/-- No position of the string starts an `@\w+` match: no `@` is
immediately followed by a word character. -/
def atClean : List Char → Bool
  | [] => true
  | c :: rest => !(c == Char.ofNat 64 && headWord rest) && atClean rest

/-- Whether the string is nonempty and starts with a non-space
character. -/
def headNonspace : List Char → Bool
  | [] => false
  | d :: _ => !pySpace d

/-- Whether the string starts with an `https?://\S+` match: an `http://`
or `https://` scheme followed by at least one non-space character. -/
def isUrlStart (l : List Char) : Bool :=
  (decide (l.take 8 = "https://".toList) && headNonspace (l.drop 8))
    || (decide (l.take 7 = "http://".toList) && headNonspace (l.drop 7))

/-- No suffix of the string starts an `https?://\S+` match. -/
def urlClean : List Char → Bool
  | [] => true
  | c :: rest => !(isUrlStart (c :: rest)) && urlClean rest

/-- A feedback log in which every record's kind string is one of the two
values the dialogue flow ever submits. -/
def goodLog (fs : List Feedback) : Prop :=
  ∀ f ∈ fs, f.ftype = "complaint".toList ∨ f.ftype = "suggestion".toList

/-- The ranges `datetime.now()` guarantees for its fields. -/
abbrev validTime (t : PyTime) : Prop :=
  t.year ≤ 9999 ∧ 1 ≤ t.month ∧ t.month ≤ 12 ∧ 1 ≤ t.day ∧ t.day ≤ 31
    ∧ t.hour ≤ 23 ∧ t.minute ≤ 59 ∧ t.second ≤ 59 ∧ t.micro ≤ 999999

example : ("ab".toList : List Char) = ['a', 'b'] := by decide

example : subAtAux false "а @вася и @petya!".toList
    = "а [пользователь] и [пользователь]!".toList := by decide

example : subAtAux false "@@ab @".toList = "@[пользователь] @".toList := by
  decide

example : subUrlAux false "см. https://a.b/c и http://d e".toList
    = "см. [ссылка] и [ссылка] e".toList := by decide

example : subUrlAux false "http:// x".toList = "http:// x".toList := by decide

example : anonymize_text "http:// a".toList 7 = "http://...".toList := by decide

example : anonymize_text "http://...".toList 7 = "[ссылка...".toList := by decide

example : placeMarkerRect 100 100 100 10 50 50 = ⟨-30, 35, 90, 65⟩ := by decide

example :
    (makeFeedback [] "complaint".toList 1 "hi".toList none none
      ⟨2024, 1, 1, 0, 0, 0, 0⟩).public_user_id = "user_1000".toList := by decide

example : feedbackCounts [] = [] := rfl

end SMap

namespace SMap

lemma lookup_addCount (acc : List (Int × Nat × Nat)) (l loc : Int) (b : Bool) :
    lookupCounts (addCount acc l b) loc =
      if l = loc then
        (if b then ((lookupCounts acc loc).1 + 1, (lookupCounts acc loc).2)
         else ((lookupCounts acc loc).1, (lookupCounts acc loc).2 + 1))
      else lookupCounts acc loc := by
  induction acc with
  | nil =>
    cases b <;> by_cases h : l = loc <;>
      simp [addCount, lookupCounts, h]
  | cons e rest ih =>
    obtain ⟨l', c, su⟩ := e
    by_cases h1 : l' = l
    · subst h1
      cases b <;> by_cases h2 : l' = loc <;>
        simp [addCount, lookupCounts, h2]
    · by_cases h2 : l' = loc
      · subst h2
        have : ¬ l = l' := fun h => h1 h.symm
        simp [addCount, lookupCounts, h1, this]
      · simp [addCount, lookupCounts, h1, h2, ih]

lemma sumCounts_addCount (acc : List (Int × Nat × Nat)) (l : Int) (b : Bool) :
    sumCounts (addCount acc l b) = sumCounts acc + 1 := by
  induction acc with
  | nil => cases b <;> simp [addCount, sumCounts]
  | cons e rest ih =>
    obtain ⟨l', c, su⟩ := e
    by_cases h1 : l' = l <;> cases b <;>
      simp [addCount, sumCounts, h1, ih] <;> omega

lemma lookup_foldl_counts (fs : List Feedback) (h : goodLog fs) (loc : Int) :
    ∀ acc,
      lookupCounts
        (fs.foldl (fun acc f =>
          addCount acc f.location_id (f.ftype = "complaint".toList)) acc) loc
        = ((lookupCounts acc loc).1 + fs.countP (complaintAt loc),
           (lookupCounts acc loc).2 + fs.countP (suggestionAt loc)) := by
  induction fs with
  | nil => intro acc; simp
  | cons f rest ih =>
    intro acc
    have hf := h f (List.mem_cons_self f rest)
    have hrest : goodLog rest := fun g hg => h g (List.mem_cons_of_mem f hg)
    have hcs : ("complaint".toList : List Char) ≠ "suggestion".toList := by decide
    simp only [List.foldl_cons, ih hrest, lookup_addCount, List.countP_cons]
    by_cases hl : f.location_id = loc
    · rcases hf with hc | hs
      · simp [complaintAt, suggestionAt, hl, hc, hcs]
        omega
      · have : f.ftype ≠ "complaint".toList := by
          rw [hs]; exact fun h => hcs h.symm
        simp [complaintAt, suggestionAt, hl, hs, this]
        omega
    · have hl' : ¬ f.location_id = loc := hl
      simp [complaintAt, suggestionAt, hl']

lemma sum_foldl_counts (fs : List Feedback) :
    ∀ acc,
      sumCounts
        (fs.foldl (fun acc f =>
          addCount acc f.location_id (f.ftype = "complaint".toList)) acc)
        = sumCounts acc + fs.length := by
  induction fs with
  | nil => intro acc; simp
  | cons f rest ih =>
    intro acc
    simp only [List.foldl_cons, ih, sumCounts_addCount, List.length_cons]
    omega

lemma get_feedbacks_save_feedback (s : StoreState) (ft : List Char) (loc : Int)
    (tx : List Char) (u : Option Int) (n : Option (List Char)) (t : PyTime) :
    (get_feedbacks (save_feedback s ft loc tx u n t)).1
      = (get_feedbacks s).1
          ++ [makeFeedback (get_feedbacks s).1 ft loc tx u n t] := rfl

lemma goodLog_runAppends (calls : List AppendCall) :
    ∀ s : StoreState, goodLog (get_feedbacks s).1 →
      goodLog (get_feedbacks (runAppends s calls)).1 := by
  induction calls with
  | nil => intro s hs; exact hs
  | cons c rest ih =>
    intro s hs
    have hstep : goodLog (get_feedbacks (save_feedback s (kindChars c.kind)
        c.location_id c.text c.user_id c.username c.now)).1 := by
      rw [get_feedbacks_save_feedback]
      intro f hf
      rcases List.mem_append.mp hf with h | h
      · exact hs f h
      · have hfe : f = makeFeedback (get_feedbacks s).1 (kindChars c.kind)
            c.location_id c.text c.user_id c.username c.now := by
          simpa using h
        subst hfe
        cases c.kind with
        | complaint => exact Or.inl rfl
        | suggestion => exact Or.inr rfl
    have hrw : runAppends s (c :: rest)
        = runAppends (save_feedback s (kindChars c.kind) c.location_id c.text
            c.user_id c.username c.now) rest := rfl
    rw [hrw]
    exact ih _ hstep

/-- C1: after any sequence of accepted `save_feedback` calls starting from
an empty report store, `get_feedback_counts` agrees, at every location id,
with the complaint and suggestion counts obtained by direct enumeration of
the stored log, and the per-location counts sum to the total number of
stored reports. -/
theorem feedback_counts_agree_with_enumeration
    (calls : List AppendCall) (loc : Int) :
    lookupCounts (feedbackCounts (get_feedbacks (runAppends emptyStore calls)).1) loc
      = ((get_feedbacks (runAppends emptyStore calls)).1.countP (complaintAt loc),
         (get_feedbacks (runAppends emptyStore calls)).1.countP (suggestionAt loc))
    ∧ sumCounts (feedbackCounts (get_feedbacks (runAppends emptyStore calls)).1)
      = (get_feedbacks (runAppends emptyStore calls)).1.length := by
  have hgood : goodLog (get_feedbacks (runAppends emptyStore calls)).1 :=
    goodLog_runAppends calls emptyStore (by intro f hf; simp [get_feedbacks,
      emptyStore, load_json] at hf)
  constructor
  · have h := lookup_foldl_counts _ hgood loc []
    simpa [feedbackCounts, lookupCounts] using h
  · have h := sum_foldl_counts (get_feedbacks (runAppends emptyStore calls)).1 []
    simpa [feedbackCounts, sumCounts] using h

lemma lookupKey_cons (e : List Char × Coord) (rest : CoordTable) (k : List Char) :
    lookupKey (e :: rest) k = if e.1 = k then some e.2 else lookupKey rest k := rfl

lemma hasKey_cons (e : List Char × Coord) (rest : CoordTable) (k : List Char) :
    hasKey (e :: rest) k = (decide (e.1 = k) || hasKey rest k) := rfl

lemma hasKey_nil (k : List Char) : hasKey [] k = false := rfl

lemma lookupKey_append_of_hasKey (t l : CoordTable) (k : List Char)
    (h : hasKey t k = true) : lookupKey (t ++ l) k = lookupKey t k := by
  induction t with
  | nil => rw [hasKey_nil] at h; cases h
  | cons e rest ih =>
    by_cases hk : e.1 = k
    · simp [List.cons_append, lookupKey_cons, hk]
    · rw [hasKey_cons] at h
      have h' : hasKey rest k = true := by
        simpa [hk] using h
      simp [List.cons_append, lookupKey_cons, hk, ih h']

lemma lookupKey_append_of_not_hasKey (t l : CoordTable) (k : List Char)
    (h : hasKey t k = false) : lookupKey (t ++ l) k = lookupKey l k := by
  induction t with
  | nil => simp
  | cons e rest ih =>
    rw [hasKey_cons] at h
    have hk : ¬ e.1 = k := by
      intro hkk
      simp [hkk] at h
    have h' : hasKey rest k = false := by
      simpa [hk] using h
    simp [List.cons_append, lookupKey_cons, hk, ih h']

lemma hasKey_append (t l : CoordTable) (k : List Char) :
    hasKey (t ++ l) k = (hasKey t k || hasKey l k) := by
  induction t with
  | nil => rw [hasKey_nil]; simp
  | cons e rest ih =>
    rw [List.cons_append, hasKey_cons, hasKey_cons, ih, Bool.or_assoc]

lemma lookupKey_backfill_of_hasKey (locs : List Location) :
    ∀ acc k, hasKey acc k = true →
      lookupKey (backfillCoordinates locs acc) k = lookupKey acc k := by
  induction locs with
  | nil => intro acc k _; rfl
  | cons l' rest ih =>
    intro acc k hk
    have hstep : backfillCoordinates (l' :: rest) acc
        = backfillCoordinates rest
            (if hasKey acc (intToChars l'.id) then acc
             else acc ++ [(intToChars l'.id, ⟨512, 512, l'.name⟩)]) := rfl
    rw [hstep]
    by_cases hc : hasKey acc (intToChars l'.id) = true
    · rw [if_pos hc]
      exact ih acc k hk
    · rw [if_neg hc]
      have hk' : hasKey (acc ++ [(intToChars l'.id, ⟨512, 512, l'.name⟩)]) k
          = true := by
        rw [hasKey_append, hk]
        rfl
      rw [ih _ k hk', lookupKey_append_of_hasKey _ _ _ hk]

lemma lookupKey_backfill_of_missing (locs : List Location) :
    ∀ (acc : CoordTable) (loc : Location), loc ∈ locs →
      (locs.map (fun l => intToChars l.id)).Nodup →
      hasKey acc (intToChars loc.id) = false →
      lookupKey (backfillCoordinates locs acc) (intToChars loc.id)
        = some ⟨512, 512, loc.name⟩ := by
  induction locs with
  | nil => intro acc loc h; simp at h
  | cons l' rest ih =>
    intro acc loc hmem hnodup hkey
    have hstep : backfillCoordinates (l' :: rest) acc
        = backfillCoordinates rest
            (if hasKey acc (intToChars l'.id) then acc
             else acc ++ [(intToChars l'.id, ⟨512, 512, l'.name⟩)]) := rfl
    rcases List.mem_cons.mp hmem with heq | hmem'
    · subst heq
      rw [hstep, if_neg (by simp [hkey])]
      have hk' : hasKey (acc ++ [(intToChars loc.id, ⟨512, 512, loc.name⟩)])
          (intToChars loc.id) = true := by
        rw [hasKey_append, hkey]
        simp [hasKey]
      rw [lookupKey_backfill_of_hasKey rest _ _ hk',
          lookupKey_append_of_not_hasKey _ _ _ hkey]
      simp [lookupKey]
    · rw [List.map_cons] at hnodup
      have hnd := List.nodup_cons.mp hnodup
      have hne : intToChars l'.id ≠ intToChars loc.id := by
        intro hcontra
        exact hnd.1 (hcontra ▸ List.mem_map.mpr ⟨loc, hmem', rfl⟩)
      have hnodup' : (rest.map (fun l => intToChars l.id)).Nodup := hnd.2
      rw [hstep]
      by_cases hc : hasKey acc (intToChars l'.id) = true
      · rw [if_pos hc]
        exact ih acc loc hmem' hnodup' hkey
      · rw [if_neg hc]
        apply ih _ loc hmem' hnodup'
        rw [hasKey_append, hkey]
        simp [hasKey, hne]

/-- C8: when the coordinates file exists (whether its contents decode or
not), `load_coordinates` leaves it untouched, returns a mapping holding a
synthesized centre-of-canvas entry (512, 512) for every known location
missing from the loaded table, and keeps every entry already present in
the loaded table unchanged — the synthesized defaults are never persisted
and never overwrite operator-set entries. -/
theorem load_coordinates_backfill (locs : List Location)
    (e : Except Unit CoordTable)
    (hnodup : (locs.map (fun l => intToChars l.id)).Nodup) :
    (load_coordinates locs (some e)).2 = some e
    ∧ (∀ loc ∈ locs,
        hasKey (load_json (some e) default_coordinates).1 (intToChars loc.id)
            = false →
        lookupKey (load_coordinates locs (some e)).1 (intToChars loc.id)
          = some ⟨512, 512, loc.name⟩)
    ∧ (∀ k, hasKey (load_json (some e) default_coordinates).1 k = true →
        lookupKey (load_coordinates locs (some e)).1 k
          = lookupKey (load_json (some e) default_coordinates).1 k) := by
  refine ⟨rfl, ?_, ?_⟩
  · intro loc hmem hmiss
    exact lookupKey_backfill_of_missing locs _ loc hmem hnodup hmiss
  · intro k hk
    exact lookupKey_backfill_of_hasKey locs _ k hk

/-- Witness for C8 at a concrete input: a coordinates file holding only
key "1", and a registry with locations 1 and 13; location 13 gets the
synthesized centre entry in memory, the file stays as it was, and the
operator-set entry for "1" is returned unchanged. -/
theorem load_coordinates_backfill_witness :
    (load_coordinates
        [⟨1, "A".toList, "e".toList, "d".toList⟩,
         ⟨13, "B".toList, "e".toList, "d".toList⟩]
        (some (Except.ok [("1".toList, ⟨100, 100, "A".toList⟩)]))).2
      = some (Except.ok [("1".toList, ⟨100, 100, "A".toList⟩)])
    ∧ lookupKey (load_coordinates
        [⟨1, "A".toList, "e".toList, "d".toList⟩,
         ⟨13, "B".toList, "e".toList, "d".toList⟩]
        (some (Except.ok [("1".toList, ⟨100, 100, "A".toList⟩)]))).1 "13".toList
      = some ⟨512, 512, "B".toList⟩
    ∧ lookupKey (load_coordinates
        [⟨1, "A".toList, "e".toList, "d".toList⟩,
         ⟨13, "B".toList, "e".toList, "d".toList⟩]
        (some (Except.ok [("1".toList, ⟨100, 100, "A".toList⟩)]))).1 "1".toList
      = some ⟨100, 100, "A".toList⟩ := by
  have h := load_coordinates_backfill
    [⟨1, "A".toList, "e".toList, "d".toList⟩,
     ⟨13, "B".toList, "e".toList, "d".toList⟩]
    (Except.ok [("1".toList, ⟨100, 100, "A".toList⟩)]) (by decide)
  refine ⟨h.1, ?_, ?_⟩
  · have h13 : intToChars (13 : Int) = "13".toList := by decide
    have := h.2.1 ⟨13, "B".toList, "e".toList, "d".toList⟩ (by decide) (by decide)
    rw [← h13]
    exact this
  · exact (h.2.2 "1".toList (by decide)).trans (by decide)

set_option maxRecDepth 8192 in
/-- C4 counterexample: the claim says acceptance is decided by the
*trimmed* body length being in [5, 1000] and the location id resolving to
a known location.  The code instead (a) rejects a body whose untrimmed
length exceeds 1000 even when its trimmed length is 5, and (b) accepts
and stores a submission for location id 999, which is not in the
registry. -/
theorem enter_feedback_text_counterexample :
    (5 ≤ (pyStrip ("abcde".toList ++ List.replicate 996 ' ')).length
      ∧ (pyStrip ("abcde".toList ++ List.replicate 996 ' ')).length ≤ 1000
      ∧ knownLocation default_locations 1 = true
      ∧ (enter_feedback_text emptyStore
          ("abcde".toList ++ List.replicate 996 ' ')
          (kindChars FbKind.complaint) 1 7 none
          ⟨2024, 1, 1, 12, 0, 0, 0⟩).2 = false)
    ∧ (5 ≤ (pyStrip "valid body".toList).length
      ∧ "valid body".toList.length ≤ 1000
      ∧ knownLocation default_locations 999 = false
      ∧ (enter_feedback_text emptyStore "valid body".toList
          (kindChars FbKind.complaint) 999 7 none
          ⟨2024, 1, 1, 12, 0, 0, 0⟩).2 = true) := by
  constructor
  · refine ⟨by decide, by decide, by decide, by decide⟩
  · refine ⟨by decide, by decide, by decide, by decide⟩

/-- C4 (amended): `enter_feedback_text` accepts exactly when the trimmed
body has at least 5 characters and the *untrimmed* body has at most 1000
characters; the location id is never validated.  On rejection nothing is
stored (the state is returned unchanged); on acceptance the trimmed body
is stored via `save_feedback`. -/
theorem enter_feedback_text_amended (s : StoreState) (txt ft : List Char)
    (loc : Int) (uid : Int) (un : Option (List Char)) (t : PyTime) :
    (enter_feedback_text s txt ft loc uid un t).2
      = (decide (5 ≤ (pyStrip txt).length) && decide (txt.length ≤ 1000))
    ∧ (enter_feedback_text s txt ft loc uid un t).1
      = (if 5 ≤ (pyStrip txt).length ∧ txt.length ≤ 1000
         then save_feedback s ft loc (pyStrip txt) (some uid) un t
         else s) := by
  unfold enter_feedback_text
  by_cases h1 : (pyStrip txt).length < 5
  · have h1' : ¬ 5 ≤ (pyStrip txt).length := by omega
    simp [h1, h1']
  · by_cases h2 : 1000 < txt.length
    · have h2' : ¬ txt.length ≤ 1000 := by omega
      simp [h1, h2, h2']
    · have h1' : 5 ≤ (pyStrip txt).length := by omega
      have h2' : txt.length ≤ 1000 := by omega
      simp [h1, h2, h1', h2']

lemma clampLow_width (r1 r2 : Int) :
    (clampLow r1 r2).2 - (clampLow r1 r2).1 = r2 - r1 := by
  unfold clampLow
  split_ifs <;> ring

lemma clampLow_low (r1 r2 : Int) : 10 ≤ (clampLow r1 r2).1 := by
  unfold clampLow
  rcases abs_cases r1 with ⟨h, h0⟩ | ⟨h, h0⟩ <;> split_ifs with hc <;>
    simp only [h] <;> omega

lemma clampHigh_width (bound r1 r2 : Int) :
    (clampHigh bound r1 r2).2 - (clampHigh bound r1 r2).1 = r2 - r1 := by
  unfold clampHigh
  split_ifs <;> ring

lemma clampHigh_high (bound r1 r2 : Int) :
    (clampHigh bound r1 r2).2 ≤ bound - 10 := by
  unfold clampHigh
  split_ifs with h <;> omega

lemma clampHigh_first (bound r1 r2 : Int) :
    (clampHigh bound r1 r2).1 = r1
    ∨ (clampHigh bound r1 r2).1 = bound - 10 - (r2 - r1) := by
  unfold clampHigh
  split_ifs with h
  · right; ring
  · left; rfl

lemma axis_place (bound c u p : Int) (hu : 0 ≤ u) (hp : 10 ≤ p) :
    (clampHigh bound (clampLow (c - u - p) (c + u + p)).1
        (clampLow (c - u - p) (c + u + p)).2).1
      < (clampHigh bound (clampLow (c - u - p) (c + u + p)).1
        (clampLow (c - u - p) (c + u + p)).2).2
    ∧ (2 * u + 2 * p ≤ bound - 20 →
        0 ≤ (clampHigh bound (clampLow (c - u - p) (c + u + p)).1
              (clampLow (c - u - p) (c + u + p)).2).1
        ∧ (clampHigh bound (clampLow (c - u - p) (c + u + p)).1
              (clampLow (c - u - p) (c + u + p)).2).2 ≤ bound) := by
  have hw1 := clampLow_width (c - u - p) (c + u + p)
  have hlow := clampLow_low (c - u - p) (c + u + p)
  have hw2 := clampHigh_width bound (clampLow (c - u - p) (c + u + p)).1
    (clampLow (c - u - p) (c + u + p)).2
  have hhigh := clampHigh_high bound (clampLow (c - u - p) (c + u + p)).1
    (clampLow (c - u - p) (c + u + p)).2
  have hfirst := clampHigh_first bound (clampLow (c - u - p) (c + u + p)).1
    (clampLow (c - u - p) (c + u + p)).2
  constructor
  · omega
  · intro hfit
    rcases hfirst with h | h <;> omega

lemma fdiv_two_facts (n : Int) (hn : 0 ≤ n) :
    0 ≤ n.fdiv 2 ∧ 2 * n.fdiv 2 ≤ n := by
  have h1 : 0 ≤ n.fdiv 2 := Int.fdiv_nonneg hn (by norm_num)
  have h2 := Int.fdiv_add_fmod n 2
  have h3 : 0 ≤ n.fmod 2 := Int.fmod_nonneg hn (by norm_num)
  exact ⟨h1, by omega⟩

lemma digitChar_inj_lt :
    ∀ a < 10, ∀ b < 10, Nat.digitChar a = Nat.digitChar b → a = b := by decide

lemma pad2_length (n : Nat) : (pad2 n).length = 2 := rfl

lemma pad4_length (n : Nat) : (pad4 n).length = 4 := rfl

lemma pad2_inj (a b : Nat) (ha : a < 100) (hb : b < 100)
    (h : pad2 a = pad2 b) : a = b := by
  simp only [pad2, List.cons.injEq, and_true] at h
  have e1 := digitChar_inj_lt (a / 10 % 10) (by omega) (b / 10 % 10) (by omega) h.1
  have e2 := digitChar_inj_lt (a % 10) (by omega) (b % 10) (by omega) h.2
  omega

lemma pad4_inj (a b : Nat) (ha : a < 10000) (hb : b < 10000)
    (h : pad4 a = pad4 b) : a = b := by
  simp only [pad4, List.cons.injEq, and_true] at h
  have e1 := digitChar_inj_lt (a / 1000 % 10) (by omega) (b / 1000 % 10)
    (by omega) h.1
  have e2 := digitChar_inj_lt (a / 100 % 10) (by omega) (b / 100 % 10)
    (by omega) h.2.1
  have e3 := digitChar_inj_lt (a / 10 % 10) (by omega) (b / 10 % 10)
    (by omega) h.2.2.1
  have e4 := digitChar_inj_lt (a % 10) (by omega) (b % 10) (by omega) h.2.2.2
  omega

lemma stamp_length (t : PyTime) : (formatCacheStamp t).length = 15 := by
  simp [formatCacheStamp, pad2_length, pad4_length]

/-- C2 counterexample: on a 100×100 canvas with a measured label width of
100 (e.g. the character-count fallback estimate for a ten-digit count at
the minimum font size 20) and text height 10, the centred marker at
(50, 50) is clamped to a rectangle with `x1 = -30 < 0`: the left-edge
translation is undone and overshot by the subsequent right-edge
translation, violating `0 ≤ x1`. -/
theorem marker_rect_clamping_counterexample :
    (placeMarkerRect 100 100 100 10 50 50).x1 = -30
    ∧ ¬ (0 ≤ (placeMarkerRect 100 100 100 10 50 50).x1) := by
  refine ⟨by decide, by decide⟩

/-- C2 (amended): for every centre point (including points far outside
the canvas), every canvas size and every non-negative measured text size,
the clamped background rectangle never inverts (`x1 < x2` and `y1 < y2`
always hold); and whenever the padded label fits inside the canvas minus
the two 10-pixel margins (`tw + 2·padding ≤ W - 20` and
`th + 2·padding ≤ H - 20`) the full claimed bounds
`0 ≤ x1 < x2 ≤ W` and `0 ≤ y1 < y2 ≤ H` do hold.  For labels wider than
that, clamping can push `x1` below 0, as the counterexample shows. -/
theorem marker_rect_clamping_amended (W H tw th xr yr : Int)
    (htw : 0 ≤ tw) (hth : 0 ≤ th) :
    ((placeMarkerRect W H tw th xr yr).x1 < (placeMarkerRect W H tw th xr yr).x2
      ∧ (placeMarkerRect W H tw th xr yr).y1 < (placeMarkerRect W H tw th xr yr).y2)
    ∧ (tw + 2 * paddingOf W H ≤ W - 20 →
       th + 2 * paddingOf W H ≤ H - 20 →
       0 ≤ (placeMarkerRect W H tw th xr yr).x1
        ∧ (placeMarkerRect W H tw th xr yr).x2 ≤ W
        ∧ 0 ≤ (placeMarkerRect W H tw th xr yr).y1
        ∧ (placeMarkerRect W H tw th xr yr).y2 ≤ H) := by
  have hp : (10 : Int) ≤ paddingOf W H := le_max_left _ _
  have hx := fdiv_two_facts tw htw
  have hy := fdiv_two_facts th hth
  have hax := axis_place W (max 50 (min xr (W - 50))) (tw.fdiv 2)
    (paddingOf W H) hx.1 hp
  have hay := axis_place H (max 50 (min yr (H - 50))) (th.fdiv 2)
    (paddingOf W H) hy.1 hp
  refine ⟨⟨hax.1, hay.1⟩, fun hfx hfy => ?_⟩
  have hax2 := hax.2 (by omega)
  have hay2 := hay.2 (by omega)
  exact ⟨hax2.1, hax2.2, hay2.1, hay2.2⟩

/-- Witness for C2 (amended) at a concrete input: a 1024×1024 canvas,
label 30×20, centre far outside the canvas at (5000, -100). -/
theorem marker_rect_clamping_amended_witness :
    ((placeMarkerRect 1024 1024 30 20 5000 (-100)).x1
        < (placeMarkerRect 1024 1024 30 20 5000 (-100)).x2
      ∧ (placeMarkerRect 1024 1024 30 20 5000 (-100)).y1
        < (placeMarkerRect 1024 1024 30 20 5000 (-100)).y2)
    ∧ (0 ≤ (placeMarkerRect 1024 1024 30 20 5000 (-100)).x1
        ∧ (placeMarkerRect 1024 1024 30 20 5000 (-100)).x2 ≤ 1024
        ∧ 0 ≤ (placeMarkerRect 1024 1024 30 20 5000 (-100)).y1
        ∧ (placeMarkerRect 1024 1024 30 20 5000 (-100)).y2 ≤ 1024) := by
  have h := marker_rect_clamping_amended 1024 1024 30 20 5000 (-100)
    (by decide) (by decide)
  exact ⟨h.1, h.2 (by decide) (by decide)⟩

lemma processMarker_of_survivable (beh : DrawBehavior) (cs : Nat × Nat)
    (h : survivable beh cs) :
    processMarker beh cs
      = if cs.1 = 0 ∧ cs.2 = 0 then MarkerStep.skipped
        else MarkerStep.drawn := by
  unfold processMarker
  by_cases h0 : cs.1 = 0 ∧ cs.2 = 0
  · simp [h0]
  · obtain ⟨hr, hd, hs⟩ := h h0
    by_cases h1 : cs.1 ≠ 0 ∧ cs.2 ≠ 0
    · obtain ⟨hbb, htf⟩ := hd h1
      rcases htf with ht | ht <;> simp [h0, h1, hr, hbb, ht]
    · have hz : cs.1 = 0 ∨ cs.2 = 0 := by tauto
      simp [h0, h1, hr, hs hz]

lemma drawMarkersLoop_cons_none (beh : Int → DrawBehavior)
    (fc : List (Int × Nat × Nat)) (e : List Char × Coord)
    (rest : List (List Char × Coord)) (n : Nat)
    (hp : parseIntKey e.1 = none) :
    drawMarkersLoop beh fc (e :: rest) n = drawMarkersLoop beh fc rest n := by
  rw [show drawMarkersLoop beh fc (e :: rest) n
        = (match parseIntKey e.1 with
           | none => drawMarkersLoop beh fc rest n
           | some loc =>
             match processMarker (beh loc) (lookupCounts fc loc) with
             | MarkerStep.skipped => drawMarkersLoop beh fc rest n
             | MarkerStep.drawn => drawMarkersLoop beh fc rest (n + 1)
             | MarkerStep.raised => (false, n)) from rfl, hp]

lemma drawMarkersLoop_cons_some (beh : Int → DrawBehavior)
    (fc : List (Int × Nat × Nat)) (e : List Char × Coord)
    (rest : List (List Char × Coord)) (n : Nat) (loc : Int)
    (hp : parseIntKey e.1 = some loc) :
    drawMarkersLoop beh fc (e :: rest) n
      = match processMarker (beh loc) (lookupCounts fc loc) with
        | MarkerStep.skipped => drawMarkersLoop beh fc rest n
        | MarkerStep.drawn => drawMarkersLoop beh fc rest (n + 1)
        | MarkerStep.raised => (false, n) := by
  rw [show drawMarkersLoop beh fc (e :: rest) n
        = (match parseIntKey e.1 with
           | none => drawMarkersLoop beh fc rest n
           | some loc =>
             match processMarker (beh loc) (lookupCounts fc loc) with
             | MarkerStep.skipped => drawMarkersLoop beh fc rest n
             | MarkerStep.drawn => drawMarkersLoop beh fc rest (n + 1)
             | MarkerStep.raised => (false, n)) from rfl, hp]

lemma drawMarkersLoop_of_survivable (beh : Int → DrawBehavior)
    (fc : List (Int × Nat × Nat)) (coords : List (List Char × Coord))
    (h : ∀ e ∈ coords, keySurvivable beh fc e) :
    ∀ n, drawMarkersLoop beh fc coords n
      = (true, n + coords.countP (fun e =>
          match parseIntKey e.1 with
          | none => false
          | some loc => decide (¬ ((lookupCounts fc loc).1 = 0
              ∧ (lookupCounts fc loc).2 = 0)))) := by
  induction coords with
  | nil => intro n; simp [drawMarkersLoop]
  | cons e rest ih =>
    intro n
    have he := h e (List.mem_cons_self e rest)
    have hrest : ∀ e' ∈ rest, keySurvivable beh fc e' :=
      fun e' he' => h e' (List.mem_cons_of_mem e he')
    rw [List.countP_cons]
    cases hp : parseIntKey e.1 with
    | none =>
      rw [drawMarkersLoop_cons_none beh fc e rest n hp, ih hrest n]
      simp [hp]
    | some loc =>
      have hsurv : survivable (beh loc) (lookupCounts fc loc) := by
        unfold keySurvivable at he
        rw [hp] at he
        exact he
      have hm := processMarker_of_survivable (beh loc) (lookupCounts fc loc) hsurv
      rw [drawMarkersLoop_cons_some beh fc e rest n loc hp]
      by_cases h0 : (lookupCounts fc loc).1 = 0 ∧ (lookupCounts fc loc).2 = 0
      · rw [if_pos h0] at hm
        rw [hm]
        show drawMarkersLoop beh fc rest n = _
        rw [ih hrest n]
        have hmz : (match some loc with
            | none => false
            | some loc => decide (¬ ((lookupCounts fc loc).1 = 0
                ∧ (lookupCounts fc loc).2 = 0))) = false := by
          simp [h0]
        rw [hmz, if_neg (by simp)]
        simp
      · rw [if_neg h0] at hm
        rw [hm]
        show drawMarkersLoop beh fc rest (n + 1) = _
        rw [ih hrest (n + 1)]
        have hmo : (match some loc with
            | none => false
            | some loc => decide (¬ ((lookupCounts fc loc).1 = 0
                ∧ (lookupCounts fc loc).2 = 0))) = true := by
          simp [h0]
        rw [hmo, if_pos rfl, Prod.mk.injEq]
        exact ⟨rfl, by omega⟩

lemma atClean_cons (c : Char) (rest : List Char) :
    atClean (c :: rest)
      = (!(c == Char.ofNat 64 && headWord rest) && atClean rest) := rfl

lemma atClean_tail (c : Char) (rest : List Char)
    (h : atClean (c :: rest) = true) : atClean rest = true := by
  revert h
  rw [atClean_cons]
  cases (c == Char.ofNat 64 && headWord rest) <;> cases hr : atClean rest <;>
    simp

lemma atClean_head (c : Char) (rest : List Char)
    (h : atClean (c :: rest) = true) :
    (c == Char.ofNat 64 && headWord rest) = false := by
  revert h
  rw [atClean_cons]
  cases (c == Char.ofNat 64 && headWord rest) <;> simp

lemma atClean_append_of_no_at (l z : List Char) (hz : atClean z = true)
    (hl : ∀ c ∈ l, c ≠ Char.ofNat 64) : atClean (l ++ z) = true := by
  induction l with
  | nil => simpa using hz
  | cons c cs ih =>
    rw [List.cons_append, atClean_cons]
    have hc : (c == Char.ofNat 64) = false := by
      simpa using hl c (List.mem_cons_self c cs)
    simp [hc, ih (fun c' hc' => hl c' (List.mem_cons_of_mem c hc'))]

lemma subAt_of_atClean (l : List Char) (h : atClean l = true) :
    subAtAux false l = l := by
  induction l with
  | nil => rfl
  | cons c rest ih =>
    have hno := atClean_head c rest h
    have hrest := atClean_tail c rest h
    simp [subAtAux, hno, ih hrest]

lemma subAtAux_false_cons (c : Char) (rest : List Char) :
    subAtAux false (c :: rest)
      = (if c == Char.ofNat 64 && headWord rest then
           userRepl ++ subAtAux true rest
         else c :: subAtAux false rest) := by
  rw [show subAtAux false (c :: rest)
        = (if false && isWordChar c then subAtAux true rest
           else if c == Char.ofNat 64 && headWord rest then
             userRepl ++ subAtAux true rest
           else c :: subAtAux false rest) from rfl]
  rw [if_neg (by simp)]

lemma headWord_subAt (l : List Char) (h : headWord l = false) :
    headWord (subAtAux false l) = false := by
  cases l with
  | nil => rfl
  | cons c rest =>
    have hc : isWordChar c = false := h
    rw [subAtAux_false_cons]
    by_cases h2 : (c == Char.ofNat 64 && headWord rest) = true
    · rw [if_pos h2]
      rfl
    · rw [if_neg h2]
      exact hc

lemma atClean_subAt (l : List Char) : ∀ b, atClean (subAtAux b l) = true := by
  induction l with
  | nil => intro b; rfl
  | cons c rest ih =>
    intro b
    by_cases h1 : (b && isWordChar c) = true
    · simp only [subAtAux, h1, if_true]
      exact ih true
    · by_cases h2 : (c == Char.ofNat 64 && headWord rest) = true
      · simp only [subAtAux, h1, Bool.false_eq_true, if_false, h2, if_true]
        refine atClean_append_of_no_at userRepl _ (ih true) (by decide)
      · simp only [subAtAux, h1, Bool.false_eq_true, if_false, h2]
        rw [atClean_cons]
        have hhead : (c == Char.ofNat 64 && headWord (subAtAux false rest))
            = false := by
          rcases Bool.eq_false_or_eq_true (c == Char.ofNat 64) with hc | hc
          · rcases Bool.eq_false_or_eq_true (headWord rest) with hw | hw
            · exact absurd (by rw [hc, hw]; decide) h2
            · rw [headWord_subAt rest hw]
              simp
          · simp [hc]
        simp [hhead, ih false]

lemma urlClean_cons (c : Char) (rest : List Char) :
    urlClean (c :: rest) = (!(isUrlStart (c :: rest)) && urlClean rest) := rfl

lemma urlClean_tail (c : Char) (rest : List Char)
    (h : urlClean (c :: rest) = true) : urlClean rest = true := by
  revert h
  rw [urlClean_cons]
  cases isUrlStart (c :: rest) <;> cases hr : urlClean rest <;> simp

lemma urlClean_head (c : Char) (rest : List Char)
    (h : urlClean (c :: rest) = true) : isUrlStart (c :: rest) = false := by
  revert h
  rw [urlClean_cons]
  cases isUrlStart (c :: rest) <;> simp

lemma isUrlStart_https (d : Char) (r : List Char) :
    isUrlStart ('h' :: 't' :: 't' :: 'p' :: 's' :: ':' :: '/' :: '/' :: d :: r)
      = !pySpace d := by
  simp [isUrlStart, headNonspace, List.take_succ_cons, List.take_zero]

lemma isUrlStart_http (d : Char) (r : List Char) :
    isUrlStart ('h' :: 't' :: 't' :: 'p' :: ':' :: '/' :: '/' :: d :: r)
      = !pySpace d := by
  simp [isUrlStart, headNonspace, List.take_succ_cons, List.take_zero]

lemma isUrlStart_cons_not_h (c : Char) (l : List Char) (hc : c ≠ 'h') :
    isUrlStart (c :: l) = false := by
  have h8 : ((c :: l).take 8 = "https://".toList) = False := by
    simp only [show (8 : Nat) = 7 + 1 from rfl, List.take_succ_cons]
    simp [hc]
  have h7 : ((c :: l).take 7 = "http://".toList) = False := by
    simp only [show (7 : Nat) = 6 + 1 from rfl, List.take_succ_cons]
    simp [hc]
  simp only [isUrlStart, h8, h7, decide_False, Bool.false_and, Bool.or_self]

lemma subUrl_cons_not_h (c : Char) (rest : List Char) (hc : c ≠ 'h') :
    subUrlAux false (c :: rest) = c :: subUrlAux false rest :=
  subUrlAux.eq_5 c rest (fun _ _ h _ => absurd h hc) (fun _ _ h _ => absurd h hc)

lemma subUrl_head_transfer :
    ∀ (b : Bool) (rest : List Char), b = false →
      ∀ (x : Char) (out' : List Char), x ≠ 'h' → x ≠ Char.ofNat 91 →
        subUrlAux false rest = x :: out' →
        ∃ r', rest = x :: r' ∧ out' = subUrlAux false r' := by
  intro b rest
  induction b, rest using subUrlAux.induct with
  | case1 b => intro _ x out' _ _ h; cases h
  | case2 c rest hsp ih => intro h; cases h
  | case3 c rest hsp ih => intro h; cases h
  | case4 d r hsp ih =>
    intro _ x out' hx1 _ h
    rw [subUrlAux.eq_3, if_pos hsp] at h
    exact absurd (by injection h with h1 _; exact h1.symm) hx1
  | case5 d r hsp ih =>
    intro _ x out' _ hx2 h
    rw [subUrlAux.eq_3, if_neg hsp] at h
    exact absurd (by injection h with h1 _; exact h1.symm) hx2
  | case6 d r hsp ih =>
    intro _ x out' hx1 _ h
    rw [subUrlAux.eq_4, if_pos hsp] at h
    exact absurd (by injection h with h1 _; exact h1.symm) hx1
  | case7 d r hsp ih =>
    intro _ x out' _ hx2 h
    rw [subUrlAux.eq_4, if_neg hsp] at h
    exact absurd (by injection h with h1 _; exact h1.symm) hx2
  | case8 c rest h1 h2 ih =>
    intro _ x out' _ _ h
    rw [subUrlAux.eq_5 c rest h1 h2] at h
    injection h with ha hb
    exact ⟨rest, by rw [ha], hb.symm⟩

lemma take_succ_cons_elim (l : List Char) (n : Nat) (c : Char) (u : List Char)
    (h : l.take (n + 1) = c :: u) : ∃ l', l = c :: l' ∧ l'.take n = u := by
  cases l with
  | nil => simp at h
  | cons a l' =>
    rw [List.take_succ_cons] at h
    injection h with h1 h2
    exact ⟨l', by rw [h1], h2⟩

lemma subUrl_transfer_chain (pat : List Char)
    (hpat : ∀ x ∈ pat, x ≠ 'h' ∧ x ≠ Char.ofNat 91) :
    ∀ rest, (subUrlAux false rest).take pat.length = pat →
      ∃ rest', rest = pat ++ rest'
        ∧ subUrlAux false rest = pat ++ subUrlAux false rest' := by
  induction pat with
  | nil => intro rest _; exact ⟨rest, rfl, rfl⟩
  | cons x ps ih =>
    intro rest htake
    rw [List.length_cons] at htake
    obtain ⟨out', hout, htake'⟩ :=
      take_succ_cons_elim (subUrlAux false rest) ps.length x _ htake
    obtain ⟨hx1, hx2⟩ := hpat x (List.mem_cons_self x ps)
    obtain ⟨r', hr', hout'⟩ :=
      subUrl_head_transfer false rest rfl x out' hx1 hx2 hout
    obtain ⟨rest', hrest', heq⟩ := ih
      (fun z hz => hpat z (List.mem_cons_of_mem x hz)) r'
      (by rw [← hout']; exact htake')
    refine ⟨rest', by rw [hr', hrest', List.cons_append], ?_⟩
    rw [hout, hout', heq, List.cons_append]

lemma urlClean_append_of_no_h (l z : List Char) (hz : urlClean z = true)
    (hl : ∀ c ∈ l, c ≠ 'h') : urlClean (l ++ z) = true := by
  induction l with
  | nil => simpa using hz
  | cons c cs ih =>
    rw [List.cons_append, urlClean_cons]
    rw [isUrlStart_cons_not_h c _ (hl c (List.mem_cons_self c cs))]
    simp [ih (fun c' hc' => hl c' (List.mem_cons_of_mem c hc'))]

lemma headWord_subUrl (l : List Char) (h : headWord l = false) :
    headWord (subUrlAux false l) = false := by
  cases l with
  | nil => rfl
  | cons c rest =>
    have hc : isWordChar c = false := h
    have hch : c ≠ 'h' := by
      intro hh
      rw [hh] at hc
      exact absurd hc (by decide)
    rw [subUrl_cons_not_h c rest hch]
    exact hc

lemma urlClean_cons_not_h (c : Char) (rest : List Char) (hc : c ≠ 'h')
    (h : urlClean rest = true) : urlClean (c :: rest) = true := by
  rw [urlClean_cons, isUrlStart_cons_not_h c rest hc]
  simpa using h

lemma atClean_subUrl :
    ∀ (b : Bool) (l : List Char), atClean l = true →
      atClean (subUrlAux b l) = true := by
  intro b l
  induction b, l using subUrlAux.induct with
  | case1 b => intro _; rw [subUrlAux.eq_1]; rfl
  | case2 c rest hsp ih =>
    intro h
    rw [subUrlAux.eq_2, if_pos hsp, atClean_cons]
    have hc : (c == Char.ofNat 64) = false := by
      have : c ≠ Char.ofNat 64 := by
        intro he
        rw [he] at hsp
        exact absurd hsp (by decide)
      simp [this]
    simp [hc, ih (atClean_tail _ _ h)]
  | case3 c rest hsp ih =>
    intro h
    rw [subUrlAux.eq_2, if_neg hsp]
    exact ih (atClean_tail _ _ h)
  | case4 d r hsp ih =>
    intro h
    rw [subUrlAux.eq_3, if_pos hsp, atClean_cons]
    have hh : ('h' == Char.ofNat 64) = false := by decide
    simp [hh, ih (atClean_tail _ _ h)]
  | case5 d r hsp ih =>
    intro h
    rw [subUrlAux.eq_3, if_neg hsp]
    refine atClean_append_of_no_at linkRepl _ (ih ?_) (by decide)
    exact atClean_tail _ _ (atClean_tail _ _ (atClean_tail _ _ (atClean_tail _ _
      (atClean_tail _ _ (atClean_tail _ _ (atClean_tail _ _ (atClean_tail _ _ h)))))))
  | case6 d r hsp ih =>
    intro h
    rw [subUrlAux.eq_4, if_pos hsp, atClean_cons]
    have hh : ('h' == Char.ofNat 64) = false := by decide
    simp [hh, ih (atClean_tail _ _ h)]
  | case7 d r hsp ih =>
    intro h
    rw [subUrlAux.eq_4, if_neg hsp]
    refine atClean_append_of_no_at linkRepl _ (ih ?_) (by decide)
    exact atClean_tail _ _ (atClean_tail _ _ (atClean_tail _ _ (atClean_tail _ _
      (atClean_tail _ _ (atClean_tail _ _ (atClean_tail _ _ h))))))
  | case8 c rest h1 h2 ih =>
    intro h
    rw [subUrlAux.eq_5 c rest h1 h2, atClean_cons]
    have hrest := ih (atClean_tail _ _ h)
    have hhead : (c == Char.ofNat 64 && headWord (subUrlAux false rest))
        = false := by
      rcases Bool.eq_false_or_eq_true (c == Char.ofNat 64) with hc | hc
      · have hh := atClean_head c rest h
        rw [hc] at hh
        simp only [Bool.true_and] at hh
        rw [headWord_subUrl rest hh]
        simp
      · simp [hc]
    simp [hhead, hrest]

lemma subUrl_of_urlClean_aux :
    ∀ (b : Bool) (l : List Char), b = false → urlClean l = true →
      subUrlAux false l = l := by
  intro b l
  induction b, l using subUrlAux.induct with
  | case1 b => intro _ _; rw [subUrlAux.eq_1]
  | case2 c rest hsp ih => intro hb; exact absurd hb (by decide)
  | case3 c rest hsp ih => intro hb; exact absurd hb (by decide)
  | case4 d r hsp ih =>
    intro _ h
    rw [subUrlAux.eq_3, if_pos hsp, ih rfl (urlClean_tail _ _ h)]
  | case5 d r hsp ih =>
    intro _ h
    exfalso
    have hu := urlClean_head _ _ h
    rw [isUrlStart_https] at hu
    simp only [Bool.not_eq_false'] at hu
    exact hsp hu
  | case6 d r hsp ih =>
    intro _ h
    rw [subUrlAux.eq_4, if_pos hsp, ih rfl (urlClean_tail _ _ h)]
  | case7 d r hsp ih =>
    intro _ h
    exfalso
    have hu := urlClean_head _ _ h
    rw [isUrlStart_http] at hu
    simp only [Bool.not_eq_false'] at hu
    exact hsp hu
  | case8 c rest h1 h2 ih =>
    intro _ h
    rw [subUrlAux.eq_5 c rest h1 h2, ih rfl (urlClean_tail _ _ h)]

lemma subUrl_of_urlClean (l : List Char) (h : urlClean l = true) :
    subUrlAux false l = l :=
  subUrl_of_urlClean_aux false l rfl h

lemma headNonspace_subUrl_nil : headNonspace (subUrlAux false []) = false := by
  rw [subUrlAux.eq_1]
  rfl

lemma urlClean_subUrl :
    ∀ (b : Bool) (l : List Char), urlClean (subUrlAux b l) = true := by
  intro b l
  induction b, l using subUrlAux.induct with
  | case1 b => rw [subUrlAux.eq_1]; rfl
  | case2 c rest hsp ih =>
    rw [subUrlAux.eq_2, if_pos hsp]
    have hch : c ≠ 'h' := by
      intro he
      rw [he] at hsp
      exact absurd hsp (by decide)
    exact urlClean_cons_not_h c _ hch ih
  | case3 c rest hsp ih =>
    rw [subUrlAux.eq_2, if_neg hsp]
    exact ih
  | case4 d r hsp ih =>
    rw [subUrlAux.eq_3, if_pos hsp]
    have hd : d ≠ 'h' := by
      intro he
      rw [he] at hsp
      exact absurd hsp (by decide)
    rw [subUrl_cons_not_h 't' _ (by decide), subUrl_cons_not_h 't' _ (by decide),
        subUrl_cons_not_h 'p' _ (by decide), subUrl_cons_not_h 's' _ (by decide),
        subUrl_cons_not_h ':' _ (by decide), subUrl_cons_not_h '/' _ (by decide),
        subUrl_cons_not_h '/' _ (by decide), subUrl_cons_not_h d _ hd]
    rw [urlClean_cons, isUrlStart_https, hsp]
    simp only [Bool.not_true, Bool.not_false, Bool.true_and]
    have hu : urlClean (subUrlAux false r) = true := by
      have heq : subUrlAux false ('t' :: 't' :: 'p' :: 's' :: ':' :: '/' :: '/'
          :: d :: r) = 't' :: 't' :: 'p' :: 's' :: ':' :: '/' :: '/' :: d
          :: subUrlAux false r := by
        rw [subUrl_cons_not_h 't' _ (by decide), subUrl_cons_not_h 't' _ (by decide),
            subUrl_cons_not_h 'p' _ (by decide), subUrl_cons_not_h 's' _ (by decide),
            subUrl_cons_not_h ':' _ (by decide), subUrl_cons_not_h '/' _ (by decide),
            subUrl_cons_not_h '/' _ (by decide), subUrl_cons_not_h d _ hd]
      have := ih
      rw [heq] at this
      exact urlClean_tail _ _ (urlClean_tail _ _ (urlClean_tail _ _
        (urlClean_tail _ _ (urlClean_tail _ _ (urlClean_tail _ _
          (urlClean_tail _ _ (urlClean_tail _ _ this)))))))
    refine urlClean_cons_not_h 't' _ (by decide) ?_
    refine urlClean_cons_not_h 't' _ (by decide) ?_
    refine urlClean_cons_not_h 'p' _ (by decide) ?_
    refine urlClean_cons_not_h 's' _ (by decide) ?_
    refine urlClean_cons_not_h ':' _ (by decide) ?_
    refine urlClean_cons_not_h '/' _ (by decide) ?_
    refine urlClean_cons_not_h '/' _ (by decide) ?_
    exact urlClean_cons_not_h d _ hd hu
  | case5 d r hsp ih =>
    rw [subUrlAux.eq_3, if_neg hsp]
    exact urlClean_append_of_no_h linkRepl _ ih (by decide)
  | case6 d r hsp ih =>
    rw [subUrlAux.eq_4, if_pos hsp]
    have hd : d ≠ 'h' := by
      intro he
      rw [he] at hsp
      exact absurd hsp (by decide)
    rw [subUrl_cons_not_h 't' _ (by decide), subUrl_cons_not_h 't' _ (by decide),
        subUrl_cons_not_h 'p' _ (by decide), subUrl_cons_not_h ':' _ (by decide),
        subUrl_cons_not_h '/' _ (by decide), subUrl_cons_not_h '/' _ (by decide),
        subUrl_cons_not_h d _ hd]
    rw [urlClean_cons, isUrlStart_http, hsp]
    simp only [Bool.not_true, Bool.not_false, Bool.true_and]
    have hu : urlClean (subUrlAux false r) = true := by
      have heq : subUrlAux false ('t' :: 't' :: 'p' :: ':' :: '/' :: '/'
          :: d :: r) = 't' :: 't' :: 'p' :: ':' :: '/' :: '/' :: d
          :: subUrlAux false r := by
        rw [subUrl_cons_not_h 't' _ (by decide), subUrl_cons_not_h 't' _ (by decide),
            subUrl_cons_not_h 'p' _ (by decide), subUrl_cons_not_h ':' _ (by decide),
            subUrl_cons_not_h '/' _ (by decide), subUrl_cons_not_h '/' _ (by decide),
            subUrl_cons_not_h d _ hd]
      have := ih
      rw [heq] at this
      exact urlClean_tail _ _ (urlClean_tail _ _ (urlClean_tail _ _
        (urlClean_tail _ _ (urlClean_tail _ _ (urlClean_tail _ _
          (urlClean_tail _ _ this))))))
    refine urlClean_cons_not_h 't' _ (by decide) ?_
    refine urlClean_cons_not_h 't' _ (by decide) ?_
    refine urlClean_cons_not_h 'p' _ (by decide) ?_
    refine urlClean_cons_not_h ':' _ (by decide) ?_
    refine urlClean_cons_not_h '/' _ (by decide) ?_
    refine urlClean_cons_not_h '/' _ (by decide) ?_
    exact urlClean_cons_not_h d _ hd hu
  | case7 d r hsp ih =>
    rw [subUrlAux.eq_4, if_neg hsp]
    exact urlClean_append_of_no_h linkRepl _ ih (by decide)
  | case8 c rest h1 h2 ih =>
    rw [subUrlAux.eq_5 c rest h1 h2, urlClean_cons]
    have hfalse : isUrlStart (c :: subUrlAux false rest) = false := by
      rcases Bool.eq_false_or_eq_true (isUrlStart (c :: subUrlAux false rest))
        with htrue | hfls
      · exfalso
        simp only [isUrlStart, Bool.or_eq_true, Bool.and_eq_true,
          decide_eq_true_eq] at htrue
        rcases htrue with ⟨ht, hn⟩ | ⟨ht, hn⟩
        · rw [show (8 : Nat) = 7 + 1 from rfl, List.take_succ_cons] at ht
          injection ht with hc7 ht7
          obtain ⟨rest', hrest', hXeq⟩ := subUrl_transfer_chain "ttps://".toList
            (by decide) rest ht7
          have hdns : headNonspace (subUrlAux false rest') = true := by
            have hdr : (c :: subUrlAux false rest).drop 8
                = subUrlAux false rest' := by
              rw [show (8 : Nat) = 7 + 1 from rfl, List.drop_succ_cons, hXeq,
                List.drop_append_eq_append_drop]
              simp
            rw [hdr] at hn
            exact hn
          cases hre : rest' with
          | nil =>
            rw [hre] at hdns
            rw [headNonspace_subUrl_nil] at hdns
            cases hdns
          | cons e r'' =>
            exact h1 e r'' hc7 (by rw [hrest', hre]; rfl)
        · rw [show (7 : Nat) = 6 + 1 from rfl, List.take_succ_cons] at ht
          injection ht with hc6 ht6
          obtain ⟨rest', hrest', hXeq⟩ := subUrl_transfer_chain "ttp://".toList
            (by decide) rest ht6
          have hdns : headNonspace (subUrlAux false rest') = true := by
            have hdr : (c :: subUrlAux false rest).drop 7
                = subUrlAux false rest' := by
              rw [show (7 : Nat) = 6 + 1 from rfl, List.drop_succ_cons, hXeq,
                List.drop_append_eq_append_drop]
              simp
            rw [hdr] at hn
            exact hn
          cases hre : rest' with
          | nil =>
            rw [hre] at hdns
            rw [headNonspace_subUrl_nil] at hdns
            cases hdns
          | cons e r'' =>
            exact h2 e r'' hc6 (by rw [hrest', hre]; rfl)
      · exact hfls
    rw [hfalse]
    simpa using ih

lemma headWord_take_dots (rest : List Char) (k : Nat)
    (h : headWord rest = false) :
    headWord (rest.take k ++ "...".toList) = false := by
  cases rest with
  | nil =>
    rw [List.take_nil]
    decide
  | cons d t =>
    cases k with
    | zero =>
      rw [List.take_zero]
      decide
    | succ k' =>
      rw [List.take_succ_cons, List.cons_append]
      exact h

lemma atClean_truncate (l : List Char) : ∀ m, atClean l = true →
    atClean (l.take m ++ "...".toList) = true := by
  induction l with
  | nil =>
    intro m _
    rw [List.take_nil]
    decide
  | cons c rest ih =>
    intro m h
    cases m with
    | zero =>
      rw [List.take_zero]
      decide
    | succ k =>
      rw [List.take_succ_cons, List.cons_append, atClean_cons]
      have hrest := ih k (atClean_tail _ _ h)
      have hhead : (c == Char.ofNat 64
          && headWord (rest.take k ++ "...".toList)) = false := by
        rcases Bool.eq_false_or_eq_true (c == Char.ofNat 64) with hc | hc
        · have hh := atClean_head c rest h
          rw [hc] at hh
          simp only [Bool.true_and] at hh
          rw [headWord_take_dots rest k hh]
          simp
        · simp [hc]
      rw [hhead, hrest]
      decide

lemma urlClean_iff_drops (l : List Char) :
    urlClean l = true ↔ ∀ i, isUrlStart (l.drop i) = false := by
  induction l with
  | nil =>
    constructor
    · intro _ i
      rw [List.drop_nil]
      decide
    · intro _
      rfl
  | cons c rest ih =>
    constructor
    · intro h i
      cases i with
      | zero => exact urlClean_head c rest h
      | succ j =>
        rw [List.drop_succ_cons]
        exact (ih.mp (urlClean_tail _ _ h)) j
    · intro h
      rw [urlClean_cons]
      have h0 := h 0
      rw [List.drop_zero] at h0
      rw [h0]
      have hr : urlClean rest = true := ih.mpr (fun j => by
        have := h (j + 1)
        rwa [List.drop_succ_cons] at this)
      simp [hr]

lemma isUrlStart_dots_drop (j : Nat) :
    isUrlStart ("...".toList.drop j) = false := by
  match j with
  | 0 => decide
  | 1 => decide
  | 2 => decide
  | (n + 3) =>
    rw [List.drop_eq_nil_of_le
      (by rw [show ("...".toList).length = 3 from rfl]; omega)]
    decide

lemma endsWith_of_drop_eq (p s0 : List Char) (i : Nat) (hi : i ≤ p.length)
    (h : p.drop i = s0) : endsWithSeq p s0 = true := by
  unfold endsWithSeq
  have hlen : s0.length = p.length - i := by
    rw [← h, List.length_drop]
  have hix : p.length - s0.length = i := by omega
  rw [hix, h]
  simp

lemma no_dot_take_append (t pat : List Char) (n : Nat) (hlen : t.length < n)
    (hpat : ('.' : Char) ∉ pat) : (t ++ "...".toList).take n ≠ pat := by
  intro h
  rw [List.take_append_eq_append_take, List.take_of_length_le (by omega)] at h
  apply hpat
  rw [← h]
  refine List.mem_append.mpr (Or.inr ?_)
  have hj : n - t.length = (n - t.length - 1) + 1 := by omega
  rw [hj, show ("...".toList : List Char) = '.' :: '.' :: '.' :: [] from rfl,
    List.take_succ_cons]
  exact List.mem_cons_self _ _

lemma drop_head_of_take_drop (s : List Char) (k n : Nat) (d : Char)
    (t'' : List Char) (h : (s.take k).drop n = d :: t'') :
    ∃ s'', s.drop n = d :: s'' := by
  rw [List.drop_take] at h
  cases hkn : k - n with
  | zero =>
    rw [hkn] at h
    simp at h
  | succ j =>
    rw [hkn] at h
    obtain ⟨l', hl', _⟩ := take_succ_cons_elim (s.drop n) j d t'' h
    exact ⟨l', hl'⟩

lemma isUrlStart_take_dots (s : List Char) (k : Nat)
    (hs : isUrlStart s = false)
    (h7 : s.take k ≠ "http://".toList) (h8 : s.take k ≠ "https://".toList) :
    isUrlStart (s.take k ++ "...".toList) = false := by
  rcases Bool.eq_false_or_eq_true (isUrlStart (s.take k ++ "...".toList))
    with htrue | hfls
  · exfalso
    simp only [isUrlStart, Bool.or_eq_true, Bool.and_eq_true,
      decide_eq_true_eq] at htrue
    rcases htrue with ⟨ha, hb⟩ | ⟨ha, hb⟩
    · by_cases hlen : 8 ≤ (s.take k).length
      · rw [List.take_append_eq_append_take,
          show 8 - (s.take k).length = 0 by omega, List.take_zero,
          List.append_nil] at ha
        have hk8 : 8 ≤ k := by
          rw [List.length_take] at hlen
          exact (le_min_iff.mp hlen).1
        have hdrop : (s.take k ++ "...".toList).drop 8
            = (s.take k).drop 8 ++ "...".toList := by
          rw [List.drop_append_eq_append_drop,
            show 8 - (s.take k).length = 0 by omega, List.drop_zero]
        rw [hdrop] at hb
        cases hdt : (s.take k).drop 8 with
        | nil =>
          have hlen8 : (s.take k).length = 8 := by
            have hthis := congrArg List.length hdt
            rw [List.length_drop, List.length_nil] at hthis
            omega
          apply h8
          rw [← List.take_of_length_le (le_of_eq hlen8)]
          exact ha
        | cons d t'' =>
          rw [hdt, List.cons_append] at hb
          have hd : pySpace d = false := by
            simpa [headNonspace] using hb
          obtain ⟨s'', hs''⟩ := drop_head_of_take_drop s k 8 d t'' hdt
          have htk : s.take 8 = "https://".toList := by
            rw [← ha, List.take_take, min_eq_left hk8]
          have : isUrlStart s = true := by
            simp only [isUrlStart, Bool.or_eq_true, Bool.and_eq_true,
              decide_eq_true_eq]
            left
            refine ⟨htk, ?_⟩
            rw [hs'']
            simp [headNonspace, hd]
          rw [this] at hs
          cases hs
      · exact no_dot_take_append (s.take k) _ 8 (by omega) (by decide) ha
    · by_cases hlen : 7 ≤ (s.take k).length
      · rw [List.take_append_eq_append_take,
          show 7 - (s.take k).length = 0 by omega, List.take_zero,
          List.append_nil] at ha
        have hk7 : 7 ≤ k := by
          rw [List.length_take] at hlen
          exact (le_min_iff.mp hlen).1
        have hdrop : (s.take k ++ "...".toList).drop 7
            = (s.take k).drop 7 ++ "...".toList := by
          rw [List.drop_append_eq_append_drop,
            show 7 - (s.take k).length = 0 by omega, List.drop_zero]
        rw [hdrop] at hb
        cases hdt : (s.take k).drop 7 with
        | nil =>
          have hlen7 : (s.take k).length = 7 := by
            have hthis := congrArg List.length hdt
            rw [List.length_drop, List.length_nil] at hthis
            omega
          apply h7
          rw [← List.take_of_length_le (le_of_eq hlen7)]
          exact ha
        | cons d t'' =>
          rw [hdt, List.cons_append] at hb
          have hd : pySpace d = false := by
            simpa [headNonspace] using hb
          obtain ⟨s'', hs''⟩ := drop_head_of_take_drop s k 7 d t'' hdt
          have htk : s.take 7 = "http://".toList := by
            rw [← ha, List.take_take, min_eq_left hk7]
          have : isUrlStart s = true := by
            simp only [isUrlStart, Bool.or_eq_true, Bool.and_eq_true,
              decide_eq_true_eq]
            right
            refine ⟨htk, ?_⟩
            rw [hs'']
            simp [headNonspace, hd]
          rw [this] at hs
          cases hs
      · exact no_dot_take_append (s.take k) _ 7 (by omega) (by decide) ha
  · exact hfls

lemma urlClean_truncate (y : List Char) (m : Nat) (hy : urlClean y = true)
    (h7 : endsWithSeq (y.take m) "http://".toList = false)
    (h8 : endsWithSeq (y.take m) "https://".toList = false) :
    urlClean (y.take m ++ "...".toList) = true := by
  rw [urlClean_iff_drops]
  intro i
  by_cases hi : i ≤ (y.take m).length
  · rw [List.drop_append_of_le_length hi, List.drop_take]
    apply isUrlStart_take_dots (y.drop i) (m - i)
    · exact (urlClean_iff_drops y).mp hy i
    · intro hc
      have : endsWithSeq (y.take m) "http://".toList = true := by
        apply endsWith_of_drop_eq _ _ i hi
        rw [List.drop_take]
        exact hc
      rw [this] at h7
      cases h7
    · intro hc
      have : endsWithSeq (y.take m) "https://".toList = true := by
        apply endsWith_of_drop_eq _ _ i hi
        rw [List.drop_take]
        exact hc
      rw [this] at h8
      cases h8
  · rw [List.drop_append_eq_append_drop,
      List.drop_eq_nil_of_le (by omega), List.nil_append]
    exact isUrlStart_dots_drop _

/-- C3 counterexample: `anonymize_text` is not idempotent.  On the input
`"http:// a"` with `max_length = 7` neither regex matches (a space right
after the scheme), so the first application only truncates, yielding
`"http://..."` — and the appended ellipsis now forms a URL-shaped token
`http://...` that the second application replaces (and truncates again),
yielding `"[ссылка..."`. -/
theorem anonymize_not_idempotent :
    anonymize_text (anonymize_text "http:// a".toList 7) 7
      ≠ anonymize_text "http:// a".toList 7 := by decide

/-- C3 (amended): `anonymize_text` is idempotent for every input and
every `max_length`, except in the single splice case the counterexample
exhibits: when the substituted text is truncated and its truncated prefix
ends exactly with `http://` or `https://`, so that the appended `"..."`
completes a fresh URL-shaped token.  Outside that case — in particular
whenever no truncation happens — `f (f x) = f x`. -/
theorem anonymize_idempotent_amended (text : List Char) (m : Nat)
    (h : m < (subUrlAux false (subAtAux false text)).length →
      endsWithSeq ((subUrlAux false (subAtAux false text)).take m)
          "http://".toList = false
      ∧ endsWithSeq ((subUrlAux false (subAtAux false text)).take m)
          "https://".toList = false) :
    anonymize_text (anonymize_text text m) m = anonymize_text text m := by
  have hat : atClean (subUrlAux false (subAtAux false text)) = true :=
    atClean_subUrl false _ (atClean_subAt text false)
  have hurl : urlClean (subUrlAux false (subAtAux false text)) = true :=
    urlClean_subUrl false _
  by_cases hm : m < (subUrlAux false (subAtAux false text)).length
  · obtain ⟨h7, h8⟩ := h hm
    have hfx : anonymize_text text m
        = (subUrlAux false (subAtAux false text)).take m ++ "...".toList := by
      simp only [anonymize_text]
      rw [if_pos hm]
    have hpat : atClean ((subUrlAux false (subAtAux false text)).take m
        ++ "...".toList) = true := atClean_truncate _ m hat
    have hpurl : urlClean ((subUrlAux false (subAtAux false text)).take m
        ++ "...".toList) = true := urlClean_truncate _ m hurl h7 h8
    have hplen : ((subUrlAux false (subAtAux false text)).take m).length
        = m := by
      rw [List.length_take]
      exact min_eq_left (Nat.le_of_lt hm)
    have hlen2 : (((subUrlAux false (subAtAux false text)).take m)
        ++ "...".toList).length = m + 3 := by
      rw [List.length_append, hplen]
      rfl
    rw [hfx]
    simp only [anonymize_text]
    rw [subAt_of_atClean _ hpat, subUrl_of_urlClean _ hpurl,
      if_pos (by rw [hlen2]; omega)]
    rw [List.take_append_eq_append_take, List.take_of_length_le (le_of_eq hplen),
      show m - ((subUrlAux false (subAtAux false text)).take m).length = 0 by
        rw [hplen]; omega,
      List.take_zero, List.append_nil]
  · have hfx : anonymize_text text m
        = subUrlAux false (subAtAux false text) := by
      simp only [anonymize_text]
      rw [if_neg hm]
    rw [hfx]
    simp only [anonymize_text]
    rw [subAt_of_atClean _ hat, subUrl_of_urlClean _ hurl, if_neg hm]

/-- Witness for C3 (amended) at a concrete input that does get truncated:
the handle is masked, the result is longer than `max_length = 10`, and the
truncated prefix does not end with a URL scheme, so a second application
changes nothing. -/
theorem anonymize_idempotent_amended_witness :
    anonymize_text (anonymize_text "@вася длинный текст".toList 10) 10
      = anonymize_text "@вася длинный текст".toList 10 :=
  anonymize_idempotent_amended "@вася длинный текст".toList 10 (by decide)

/-- C7 counterexample, in two parts.  First: two markers with nonzero
counts; drawing the *background rectangle* of the first raises while
everything about the second is fine.  Because the loop body has no
per-marker handler around `draw.rectangle`, the exception reaches the
whole-function handler: `generate_map_image` returns `False` — no
artifact at all — and the healthy second marker is never drawn.  Second:
a dual-value marker whose *measurement* (`draw.textbbox`) raises; the
measurement fallback omits `separator_height`, so the marker's
`text_height` computation raises `UnboundLocalError` and the whole render
aborts the same way.  Both refute "a single marker's drawing failure
never causes the whole render to fail or yield no artifact". -/
theorem marker_failure_aborts_render :
    (generate_map_image
      (fun loc => if loc = 1 then ⟨true, false, true, true⟩
                  else ⟨true, true, true, true⟩)
      [("1".toList, ⟨400, 300, "A".toList⟩),
       ("2".toList, ⟨200, 200, "B".toList⟩)]
      [(1, 1, 0), (2, 0, 1)]
      = (false, 0))
    ∧ (generate_map_image
      (fun loc => if loc = 1 then ⟨false, true, true, true⟩
                  else ⟨true, true, true, true⟩)
      [("1".toList, ⟨400, 300, "A".toList⟩),
       ("2".toList, ⟨200, 200, "B".toList⟩)]
      [(1, 2, 3), (2, 0, 1)]
      = (false, 0)) := by
  refine ⟨by decide, by decide⟩

/-- C7 (amended): the only failures tolerated per marker are
`draw.textbbox` measurement failures in the *single-value* branches
(their fallback estimate is complete) and primary `draw.text` failures in
the dual-value branch (replaced by the fallback text).  A dual-value
measurement failure is fatal — its fallback omits `separator_height`, so
the marker raises `UnboundLocalError` — as is a failure of
`draw.rectangle`, of a single-value `draw.text`, or of the dual-value
fallback text: the exception reaches the whole-function handler, the
entire render returns `False` with no artifact, and the remaining markers
are not drawn.  If every drawn marker avoids those fatal cases, the
render completes and draws exactly the markers with parsable keys and
nonzero counts. -/
theorem marker_failure_amended (beh : Int → DrawBehavior)
    (coords : List (List Char × Coord)) (fc : List (Int × Nat × Nat))
    (h : ∀ e ∈ coords, keySurvivable beh fc e) :
    (generate_map_image beh coords fc).1 = true
    ∧ (generate_map_image beh coords fc).2
      = coords.countP (fun e =>
          match parseIntKey e.1 with
          | none => false
          | some loc => decide (¬ ((lookupCounts fc loc).1 = 0
              ∧ (lookupCounts fc loc).2 = 0))) := by
  unfold generate_map_image
  rw [drawMarkersLoop_of_survivable beh fc coords h 0]
  exact ⟨rfl, by simp⟩

/-- Witness for C7 (amended): marker 1 is dual-valued with failing
measurement and failing primary text draw but a working fallback;
marker 2 has a failing measurement only; the entry "x" has an unparsable
key.  The render completes and draws both real markers. -/
theorem marker_failure_amended_witness :
    (generate_map_image
        (fun loc => if loc = 1 then ⟨true, true, false, true⟩
                    else ⟨false, true, true, true⟩)
        [("1".toList, ⟨400, 300, "A".toList⟩),
         ("2".toList, ⟨200, 200, "B".toList⟩),
         ("x".toList, ⟨100, 100, "C".toList⟩)]
        [(1, 2, 3), (2, 1, 0)]).1 = true
    ∧ (generate_map_image
        (fun loc => if loc = 1 then ⟨true, true, false, true⟩
                    else ⟨false, true, true, true⟩)
        [("1".toList, ⟨400, 300, "A".toList⟩),
         ("2".toList, ⟨200, 200, "B".toList⟩),
         ("x".toList, ⟨100, 100, "C".toList⟩)]
        [(1, 2, 3), (2, 1, 0)]).2 = 2 := by
  have h := marker_failure_amended
    (fun loc => if loc = 1 then ⟨true, true, false, true⟩
                else ⟨false, true, true, true⟩)
    [("1".toList, ⟨400, 300, "A".toList⟩),
     ("2".toList, ⟨200, 200, "B".toList⟩),
     ("x".toList, ⟨100, 100, "C".toList⟩)]
    [(1, 2, 3), (2, 1, 0)] (by decide)
  exact ⟨h.1, h.2.trans (by decide)⟩

/-- C6 counterexample: the render timestamp has one-second resolution, so
two distinct render instants in the same wall-clock second — here 500 ms
apart, both valid clock readings — yield the *same* output filename,
refuting "for every pair of distinct render invocations, the output
artifact filenames are distinct". -/
theorem map_filename_collision :
    validTime ⟨2024, 6, 1, 12, 0, 0, 0⟩
    ∧ validTime ⟨2024, 6, 1, 12, 0, 0, 500000⟩
    ∧ (⟨2024, 6, 1, 12, 0, 0, 0⟩ : PyTime) ≠ ⟨2024, 6, 1, 12, 0, 0, 500000⟩
    ∧ map_output_path ⟨2024, 6, 1, 12, 0, 0, 0⟩
        = map_output_path ⟨2024, 6, 1, 12, 0, 0, 500000⟩ := by
  refine ⟨by decide, by decide, by decide, by decide⟩

/-- C6 (amended): the output filename embeds the render time at
one-second resolution only — two renders get distinct filenames exactly
when their wall-clock times differ in some field down to whole seconds;
renders within the same second (differing only in microseconds) collide
on the same output file. -/
theorem map_filename_unique_amended (t1 t2 : PyTime)
    (h1 : validTime t1) (h2 : validTime t2) :
    map_output_path t1 = map_output_path t2
      ↔ (t1.year = t2.year ∧ t1.month = t2.month ∧ t1.day = t2.day
          ∧ t1.hour = t2.hour ∧ t1.minute = t2.minute
          ∧ t1.second = t2.second) := by
  obtain ⟨hy1, hmo1a, hmo1b, hd1a, hd1b, hh1, hmi1, hs1, _⟩ := h1
  obtain ⟨hy2, hmo2a, hmo2b, hd2a, hd2b, hh2, hmi2, hs2, _⟩ := h2
  constructor
  · intro h
    unfold map_output_path at h
    rw [List.append_assoc, List.append_assoc] at h
    have hx : formatCacheStamp t1 ++ ".jpg".toList
        = formatCacheStamp t2 ++ ".jpg".toList := List.append_cancel_left h
    have hstamp : formatCacheStamp t1 = formatCacheStamp t2 :=
      (List.append_inj hx (by simp [stamp_length])).1
    simp only [formatCacheStamp, List.append_assoc] at hstamp
    have q1 := List.append_inj hstamp (by simp [pad4_length])
    have qy := pad4_inj _ _ (by omega) (by omega) q1.1
    have q2 := List.append_inj q1.2 (by simp [pad2_length])
    have qmo := pad2_inj _ _ (by omega) (by omega) q2.1
    have q3 := List.append_inj q2.2 (by simp [pad2_length])
    have qd := pad2_inj _ _ (by omega) (by omega) q3.1
    have q4 := List.append_inj q3.2 (by simp)
    have q5 := List.append_inj q4.2 (by simp [pad2_length])
    have qh := pad2_inj _ _ (by omega) (by omega) q5.1
    have q6 := List.append_inj q5.2 (by simp [pad2_length])
    have qmi := pad2_inj _ _ (by omega) (by omega) q6.1
    have qs := pad2_inj _ _ (by omega) (by omega) q6.2
    exact ⟨qy, qmo, qd, qh, qmi, qs⟩
  · intro h
    obtain ⟨ey, emo, ed, eh, emi, es⟩ := h
    unfold map_output_path formatCacheStamp
    rw [ey, emo, ed, eh, emi, es]

/-- Witness for C6 (amended): two valid instants one second apart get
different filenames. -/
theorem map_filename_unique_amended_witness :
    map_output_path ⟨2024, 6, 1, 12, 0, 0, 0⟩
      ≠ map_output_path ⟨2024, 6, 1, 12, 0, 1, 0⟩ := by
  intro hcontra
  have h := (map_filename_unique_amended ⟨2024, 6, 1, 12, 0, 0, 0⟩
    ⟨2024, 6, 1, 12, 0, 1, 0⟩ (by decide) (by decide)).mp hcontra
  exact absurd h.2.2.2.2.2 (by decide)

/-- C10: `load_json` is a total function of the file state; a missing file
is created holding the default and the default is returned; a file with
corrupt (non-decodable) contents is left unchanged and the default is
returned; a decodable file is returned unchanged. -/
theorem load_json_total_behavior (α : Type) (default : α) :
    load_json (α := α) none default = (default, some (Except.ok default)) ∧
    load_json (α := α) (some (Except.error ())) default
      = (default, some (Except.error ())) ∧
    ∀ v : α, load_json (some (Except.ok v)) default = (v, some (Except.ok v)) := by
  refine ⟨rfl, rfl, fun v => rfl⟩

/-- C9: the public pseudonym attached to a new report depends only on the
number of already-stored reports: two `save_feedback` record constructions
against the same prior log, with different user ids, usernames, kinds,
texts and wall-clock times, yield the same `public_user_id`, namely
`"user_" ++ str(len(log) + 1000)`. -/
theorem public_ref_independent_of_submitter (log : List Feedback)
    (ft₁ ft₂ : List Char) (loc₁ loc₂ : Int) (tx₁ tx₂ : List Char)
    (u₁ u₂ : Option Int) (n₁ n₂ : Option (List Char)) (t₁ t₂ : PyTime) :
    (makeFeedback log ft₁ loc₁ tx₁ u₁ n₁ t₁).public_user_id
      = (makeFeedback log ft₂ loc₂ tx₂ u₂ n₂ t₂).public_user_id ∧
    (makeFeedback log ft₁ loc₁ tx₁ u₁ n₁ t₁).public_user_id
      = "user_".toList ++ natToChars (log.length + 1000) := ⟨rfl, rfl⟩

/-- C5: `save_feedback` clears the whole map cache synchronously before it
returns, and the feedback log it leaves behind is exactly the prior log
with the new record appended — so any render issued after the call reads
an empty cache and a log that already contains the new report. -/
theorem save_feedback_invalidates_cache (s : StoreState)
    (ft : List Char) (loc : Int) (tx : List Char) (u : Option Int)
    (n : Option (List Char)) (t : PyTime) :
    (save_feedback s ft loc tx u n t).cache_files = [] ∧
    (save_feedback s ft loc tx u n t).feedbacks_file
      = some (Except.ok ((get_feedbacks s).1
          ++ [makeFeedback (get_feedbacks s).1 ft loc tx u n t])) := ⟨rfl, rfl⟩

end SMap
